import Mathlib

/-!
# Verification of the img-converter self-contained codec core

A shallow embedding, in Lean 4, of the self-contained binary codec subsystem of
the `img-converter` repository: the overflow-safe size arithmetic
(`src/lib/checked_arith.h`), the shared pixel-buffer model
(`image_validate_dims`, `image_check_max_pixels`, `image_alloc_pixels`), the
QOI codec (`qoi_read`, `qoi_write`) and the BMP codec (`bmp_read`,
`bmp_write`).

Modelling conventions:
* C `size_t` is modelled as `Nat` together with the explicit bound
  `SIZE_MAX = 2^64 - 1`; the checked-arithmetic guards are translated verbatim.
* Bytes are `Nat`s; reading a byte from a file or buffer truncates with
  `% 256` (a C `uint8_t` holds 8 bits), and byte-level bit operations on a
  value `b < 256` are translated arithmetically:
  `b & 0xc0 == t` becomes `b / 64 = t / 64`, `(b >> 4) & 3` becomes
  `b / 16 % 4`, `x | y` on disjoint bit ranges becomes `x + y`.
* Files and pixel buffers are `List Nat`; the process-wide configuration
  ceiling `max_pixels` (a C global, supplied by the excluded CLI layer) is
  threaded as an explicit parameter of every operation that consults it.
* `malloc` is modelled as always succeeding (allocation failure is an
  environment event outside a pure embedding); `image_alloc_pixels` returns
  the number of bytes it allocates.
-/

/-- `SIZE_MAX` on the 64-bit platform the repository targets. -/
def SIZE_MAX : Nat := 18446744073709551615

/-- `checked_mul_size` from `src/lib/checked_arith.h`: succeeds with the
product exactly when `a == 0 || b <= SIZE_MAX / a`; the C stores `a * b`,
which under that guard does not wrap. -/
def checked_mul_size (a b : Nat) : Option Nat :=
  if a = 0 ∨ b ≤ SIZE_MAX / a then some (a * b % 18446744073709551616) else none

/-- `checked_add_size` from `src/lib/checked_arith.h`: succeeds with the sum
exactly when `a <= SIZE_MAX - b`. -/
def checked_add_size (a b : Nat) : Option Nat :=
  if a ≤ SIZE_MAX - b then some ((a + b) % 18446744073709551616) else none

/-- The `struct image` pixel-buffer entity: dimensions, channel count and the
owned pixel byte buffer (row-major, no padding). -/
structure Image where
  width : Nat
  height : Nat
  channels : Nat
  pixels : List Nat
deriving Repr, DecidableEq

/-- `image_validate_dims`: `width > 0 && height > 0 && channels ∈ {3,4}`.
The C function receives the `struct image`; only the three scalar fields are
consulted, which the model passes directly. -/
def image_validate_dims (width height channels : Nat) : Bool :=
  0 < width && 0 < height && (channels == 3 || channels == 4)

/-- `image_check_max_pixels`: computes `width * height` by checked multiply,
failing on overflow; otherwise the ceiling passes iff it is `0` (unlimited) or
the pixel count is at most `max_pixels`. -/
def image_check_max_pixels (width height max_pixels : Nat) : Bool :=
  match checked_mul_size width height with
  | none => false
  | some pixel_count => max_pixels == 0 || pixel_count ≤ max_pixels

/-- `image_alloc_pixels`: validates dimensions and `rowbytes != 0`, validates
the pixel ceiling, computes `rowbytes * height` by checked multiply and
allocates that many bytes.  The model returns the allocated byte count;
`malloc` failure is not modelled.  All failure causes collapse to `none`,
mirroring the single `bool` the C function returns. -/
def image_alloc_pixels (width height channels rowbytes max_pixels : Nat) :
    Option Nat :=
  if ¬ (image_validate_dims width height channels) ∨ rowbytes = 0 then none
  else if ¬ (image_check_max_pixels width height max_pixels) then none
  else match checked_mul_size rowbytes height with
  | none => none
  | some total => some total

theorem checked_mul_size_spec (a b : Nat) (ha : a ≤ SIZE_MAX) (hb : b ≤ SIZE_MAX) :
    checked_mul_size a b = if a * b ≤ SIZE_MAX then some (a * b) else none := by
  unfold checked_mul_size
  rcases Nat.eq_zero_or_pos a with h0 | hpos
  · subst h0
    simp
  · have hdiv : b ≤ SIZE_MAX / a ↔ a * b ≤ SIZE_MAX := by
      rw [Nat.le_div_iff_mul_le hpos, Nat.mul_comm]
    by_cases h : a * b ≤ SIZE_MAX
    · have hmod : a * b % 18446744073709551616 = a * b :=
        Nat.mod_eq_of_lt (by unfold SIZE_MAX at h; omega)
      simp [hdiv.mpr h, h, hmod]
    · have : ¬ (a = 0 ∨ b ≤ SIZE_MAX / a) := by
        push_neg
        refine ⟨by omega, ?_⟩
        by_contra hc
        exact h (hdiv.mp (by omega))
      simp [this, h]

theorem checked_add_size_spec (a b : Nat) (ha : a ≤ SIZE_MAX) (hb : b ≤ SIZE_MAX) :
    checked_add_size a b = if a + b ≤ SIZE_MAX then some (a + b) else none := by
  unfold checked_add_size SIZE_MAX at *
  by_cases h : a + b ≤ 18446744073709551615
  · have h1 : a ≤ 18446744073709551615 - b := by omega
    have hmod : (a + b) % 18446744073709551616 = a + b := Nat.mod_eq_of_lt (by omega)
    simp [h1, h, hmod]
  · have h1 : ¬ a ≤ 18446744073709551615 - b := by omega
    simp [h1, h]

/-! ## QOI codec -/

/-- A running pixel value (the C `uint8_t px[4]`).  Components are bytes;
well-formedness (`< 256`) is tracked by `PxValid`. -/
structure Px where
  r : Nat
  g : Nat
  b : Nat
  a : Nat
deriving Repr, DecidableEq

/-- All four components fit in a byte. -/
def PxValid (p : Px) : Prop :=
  p.r < 256 ∧ p.g < 256 ∧ p.b < 256 ∧ p.a < 256

instance (p : Px) : Decidable (PxValid p) := by
  unfold PxValid
  infer_instance

/-- `qoi_hash`: `(r*3 + g*5 + b*7 + a*11) % 64`. -/
def qoi_hashPx (p : Px) : Nat :=
  (p.r * 3 + p.g * 5 + p.b * 7 + p.a * 11) % 64

/-- The 64-slot pixel-history cache, initialised to all-zero entries
(`uint8_t index[64][4] = {0}`). -/
def qoiCacheInit : List Px := List.replicate 64 ⟨0, 0, 0, 0⟩

/-- Reading cache slot `i` (`index[i]`). -/
def qoiCacheGet (cache : List Px) (i : Nat) : Px :=
  cache.getD i ⟨0, 0, 0, 0⟩

/-- The cache update `memcpy(index[qoi_hash(px)], px, 4)` both codec loops
perform on every non-run pixel. -/
def qoiCacheSet (cache : List Px) (p : Px) : List Px :=
  cache.set (qoi_hashPx p) p

/-- Byte-wrapping addition of a signed delta to a byte, modelling C
`uint8_t x; x += d;` where `d` is an `int`. -/
def byteAddI (x : Nat) (d : Int) : Nat :=
  (((x : Int) + d) % 256).toNat

/-- `qoi_read32be`. Each operand is truncated to a byte, as in the C where the
operands have type `uint8_t`. -/
def read32be (b0 b1 b2 b3 : Nat) : Nat :=
  b0 % 256 * 16777216 + b1 % 256 * 65536 + b2 % 256 * 256 + b3 % 256

/-- `qoi_write32be`: big-endian byte decomposition of a 32-bit value
(`(v >> 24) & 0xff`, ..., `v & 0xff` after the cast to `uint32_t`). -/
def write32be (v : Nat) : List Nat :=
  [v / 16777216 % 256, v / 65536 % 256, v / 256 % 256, v % 256]

/-- The per-pixel read `memcpy(px, pixels + i*3, 3); px[3] = 255;` of
`qoi_write` over a whole 3-channel buffer. -/
def qoiBytesToPixels3 : List Nat → List Px
  | r :: g :: b :: rest => ⟨r, g, b, 255⟩ :: qoiBytesToPixels3 rest
  | _ => []

/-- The per-pixel read `memcpy(px, pixels + i*4, 4)` of `qoi_write` over a
whole 4-channel buffer. -/
def qoiBytesToPixels4 : List Nat → List Px
  | r :: g :: b :: a :: rest => ⟨r, g, b, a⟩ :: qoiBytesToPixels4 rest
  | _ => []

def qoiBytesToPixels (channels : Nat) (l : List Nat) : List Px :=
  if channels = 4 then qoiBytesToPixels4 l else qoiBytesToPixels3 l

/-- The per-pixel write `memcpy(img->pixels + px_pos, px, channels)` of
`qoi_read` over the whole decoded stream: 3-channel output drops alpha. -/
def qoiPixelsToBytes (channels : Nat) (l : List Px) : List Nat :=
  if channels = 4 then l.flatMap (fun p => [p.r, p.g, p.b, p.a])
  else l.flatMap (fun p => [p.r, p.g, p.b])

/-- The op-emission body of the encoder loop in `qoi_write` for a pixel that
did not extend a run (the branch below the run handling): INDEX on a cache
hit, otherwise the cache is updated and DIFF / LUMA / RGB is chosen when
alpha is unchanged, RGBA when it changed.  Returns the emitted bytes and the
updated cache.  Op bytes: `QOI_OP_INDEX | idx = idx`,
`QOI_OP_DIFF | ((vr+2)<<4) | ((vg+2)<<2) | (vb+2)`,
`QOI_OP_LUMA | (vg+32)` then `((vg_r+8)<<4) | (vg_b+8)`,
`QOI_OP_RGB = 0xfe`, `QOI_OP_RGBA = 0xff`. -/
def qoi_encode_px (px px_prev : Px) (cache : List Px) : List Nat × List Px :=
  let idx := qoi_hashPx px
  if qoiCacheGet cache idx = px then
    ([idx], cache)
  else
    let cache := cache.set idx px
    if px.a = px_prev.a then
      let vr : Int := (px.r : Int) - (px_prev.r : Int)
      let vg : Int := (px.g : Int) - (px_prev.g : Int)
      let vb : Int := (px.b : Int) - (px_prev.b : Int)
      let vg_r := vr - vg
      let vg_b := vb - vg
      if -3 < vr ∧ vr < 2 ∧ -3 < vg ∧ vg < 2 ∧ -3 < vb ∧ vb < 2 then
        ([64 + 16 * (vr + 2).toNat + 4 * (vg + 2).toNat + (vb + 2).toNat], cache)
      else if -9 < vg_r ∧ vg_r < 8 ∧ -33 < vg ∧ vg < 32 ∧ -9 < vg_b ∧ vg_b < 8 then
        ([128 + (vg + 32).toNat, 16 * (vg_r + 8).toNat + (vg_b + 8).toNat], cache)
      else
        ([254, px.r, px.g, px.b], cache)
    else
      ([255, px.r, px.g, px.b, px.a], cache)

/-- The main encoder loop of `qoi_write` over the pixel sequence, carrying the
previous pixel, the cache and the pending run length.  A pixel equal to the
previous one extends the run, which is flushed as `QOI_OP_RUN | (run-1)`
(`0xc0 + (run-1)`, the two fields occupying disjoint bits) when it reaches 62
or at the last pixel; a differing pixel first flushes any pending run and then
goes through `qoi_encode_px`. -/
def qoi_encode_loop : List Px → Px → List Px → Nat → List Nat
  | [], _, _, _ => []
  | px :: rest, px_prev, cache, run =>
    if px = px_prev then
      let run := run + 1
      if run = 62 ∨ rest = [] then
        (192 + (run - 1)) :: qoi_encode_loop rest px cache 0
      else
        qoi_encode_loop rest px cache run
    else
      (if 0 < run then [192 + (run - 1)] else []) ++
      (let p := qoi_encode_px px px_prev cache
       p.1 ++ qoi_encode_loop rest px p.2 0)

/-- `qoi_write`: validates dimensions, computes the worst-case output size
with checked arithmetic (`pixel_count`, `data_bytes = pixel_count *
(channels+1)`, plus header and end marker), then emits the 14-byte header
(magic `"qoif"`, big-endian width and height, channels, colourspace 1), the
encoded op stream and the 8-byte end marker.  Returns the byte stream written
to the output file. -/
def qoi_write (img : Image) : Option (List Nat) :=
  if ¬ (image_validate_dims img.width img.height img.channels) then none else
  match checked_mul_size img.width img.height with
  | none => none
  | some pixel_count =>
  match checked_mul_size pixel_count (img.channels + 1) with
  | none => none
  | some data_bytes =>
  match checked_add_size 14 data_bytes with
  | none => none
  | some max_size =>
  match checked_add_size max_size 8 with
  | none => none
  | some _ =>
    some ([113, 111, 105, 102] ++ write32be img.width ++ write32be img.height ++
      [img.channels % 256, 1] ++
      qoi_encode_loop (qoiBytesToPixels img.channels img.pixels) ⟨0, 0, 0, 255⟩
        qoiCacheInit 0 ++
      [0, 0, 0, 0, 0, 0, 0, 1])

/-- The decoder loop of `qoi_read` (`while (px_pos < px_end)`), reading ops
from the byte stream while `n` pixels remain to be produced.  `b1` selects the
op exactly as in the C (`0xfe` RGB, `0xff` RGBA, then the top two bits);
`QOI_OP_RUN` re-emits the running pixel `(b1 & 0x3f) + 1` times, clamped to
the pixels remaining, and skips the cache update (`continue`); every other op
updates `index[qoi_hash(px)]`.  Returns the produced pixels and the unread
remainder of the stream. -/
def qoi_decode_loop : List Nat → Nat → Px → List Px → Option (List Px × List Nat)
  | bytes, 0, _, _ => some ([], bytes)
  | [], _ + 1, _, _ => none
  | b :: bytes, n + 1, px, cache =>
    let b1 := b % 256
    if b1 = 254 then
      if bytes.length < 3 then none
      else
        let px2 : Px := ⟨bytes.getD 0 0 % 256, bytes.getD 1 0 % 256,
                         bytes.getD 2 0 % 256, px.a⟩
        (qoi_decode_loop (bytes.drop 3) n px2 (qoiCacheSet cache px2)).map
          (fun pr => (px2 :: pr.1, pr.2))
    else if b1 = 255 then
      if bytes.length < 4 then none
      else
        let px2 : Px := ⟨bytes.getD 0 0 % 256, bytes.getD 1 0 % 256,
                         bytes.getD 2 0 % 256, bytes.getD 3 0 % 256⟩
        (qoi_decode_loop (bytes.drop 4) n px2 (qoiCacheSet cache px2)).map
          (fun pr => (px2 :: pr.1, pr.2))
    else if b1 / 64 = 0 then
      let px2 := qoiCacheGet cache b1
      (qoi_decode_loop bytes n px2 (qoiCacheSet cache px2)).map
        (fun pr => (px2 :: pr.1, pr.2))
    else if b1 / 64 = 1 then
      let px2 : Px := ⟨byteAddI px.r ((b1 / 16 % 4 : Nat) - (2 : Int)),
                       byteAddI px.g ((b1 / 4 % 4 : Nat) - (2 : Int)),
                       byteAddI px.b ((b1 % 4 : Nat) - (2 : Int)), px.a⟩
      (qoi_decode_loop bytes n px2 (qoiCacheSet cache px2)).map
        (fun pr => (px2 :: pr.1, pr.2))
    else if b1 / 64 = 2 then
      if bytes.length < 1 then none
      else
        let b2 := bytes.getD 0 0 % 256
        let vg : Int := (b1 % 64 : Nat) - (32 : Int)
        let px2 : Px := ⟨byteAddI px.r (vg - 8 + (b2 / 16 % 16 : Nat)),
                         byteAddI px.g vg,
                         byteAddI px.b (vg - 8 + (b2 % 16 : Nat)), px.a⟩
        (qoi_decode_loop (bytes.drop 1) n px2 (qoiCacheSet cache px2)).map
          (fun pr => (px2 :: pr.1, pr.2))
    else
      let run := b1 % 64 + 1
      let k := min run (n + 1)
      (qoi_decode_loop bytes (n + 1 - k) px cache).map
        (fun pr => (List.replicate k px ++ pr.1, pr.2))
termination_by bytes n px cache => n
decreasing_by all_goals omega

/-- `qoi_read`: reads and validates the 14-byte header (magic, nonzero
dimensions within `INT_MAX`, channels 3 or 4, checked size products, pixel
ceiling), then runs the decoder loop; the bytes after the last pixel-producing
op (normally the end marker) are not examined.  Returns the decoded image. -/
def qoi_read (file : List Nat) (max_pixels : Nat) : Option Image :=
  match file with
  | m0 :: m1 :: m2 :: m3 :: w0 :: w1 :: w2 :: w3 :: h0 :: h1 :: h2 :: h3 :: ch :: _cs :: rest =>
    if read32be m0 m1 m2 m3 ≠ 1903126886 then none else
    let width := read32be w0 w1 w2 w3
    let height := read32be h0 h1 h2 h3
    let channels := ch % 256
    if width = 0 ∨ height = 0 ∨ width > 2147483647 ∨ height > 2147483647 then none
    else if channels ≠ 3 ∧ channels ≠ 4 then none
    else match checked_mul_size width height with
    | none => none
    | some pixel_count =>
    match checked_mul_size pixel_count channels with
    | none => none
    | some _pixel_bytes =>
    if ¬ (image_check_max_pixels width height max_pixels) then none
    else match qoi_decode_loop rest pixel_count ⟨0, 0, 0, 255⟩ qoiCacheInit with
    | none => none
    | some (pxs, _) => some ⟨width, height, channels, qoiPixelsToBytes channels pxs⟩
  | _ => none

/-! ## Claims C2, C3, C4: checked arithmetic and the pixel-buffer model -/

/-- **C2**: for all `size_t` values `a` and `b`, `checked_mul_size` returns the
exact mathematical product whenever it is representable in `size_t` and
signals overflow (`none`) otherwise, never a wrapped value; `checked_add_size`
satisfies the same contract for the sum. -/
theorem checked_arith_exact (a b : Nat) (ha : a ≤ SIZE_MAX) (hb : b ≤ SIZE_MAX) :
    (a * b ≤ SIZE_MAX → checked_mul_size a b = some (a * b)) ∧
    (SIZE_MAX < a * b → checked_mul_size a b = none) ∧
    (a + b ≤ SIZE_MAX → checked_add_size a b = some (a + b)) ∧
    (SIZE_MAX < a + b → checked_add_size a b = none) := by
  rw [checked_mul_size_spec a b ha hb, checked_add_size_spec a b ha hb]
  refine ⟨fun h => by rw [if_pos h], fun h => by rw [if_neg (by omega)],
          fun h => by rw [if_pos h], fun h => by rw [if_neg (by omega)]⟩

/-- Witness for `checked_arith_exact` at concrete inputs. -/
theorem checked_arith_exact_witness :
    checked_mul_size 6 7 = some 42 ∧ checked_add_size 6 7 = some 13 :=
  ⟨(checked_arith_exact 6 7 (by decide) (by decide)).1 (by decide),
   (checked_arith_exact 6 7 (by decide) (by decide)).2.2.1 (by decide)⟩

/-- **C3**: `image_check_max_pixels` computes `width*height` by checked
multiply and returns `false` whenever that product overflows; otherwise it
returns `true` iff the ceiling is `0` or the product is at most the ceiling.
In particular an input declaring `width*height = 101` fails the check with
ceiling 100 and passes it with ceiling 0. -/
theorem image_check_max_pixels_correct (width height ceiling : Nat)
    (hw : width ≤ SIZE_MAX) (hh : height ≤ SIZE_MAX) :
    (SIZE_MAX < width * height →
      image_check_max_pixels width height ceiling = false) ∧
    (width * height ≤ SIZE_MAX →
      (image_check_max_pixels width height ceiling = true ↔
        ceiling = 0 ∨ width * height ≤ ceiling)) ∧
    (width * height = 101 → image_check_max_pixels width height 100 = false) ∧
    (width * height = 101 → image_check_max_pixels width height 0 = true) := by
  unfold image_check_max_pixels
  rw [checked_mul_size_spec width height hw hh]
  refine ⟨fun h => by rw [if_neg (by omega)], fun h => ?_, fun h => ?_, fun h => ?_⟩
  · rw [if_pos h]
    simp
  · rw [if_pos (by rw [h]; decide), h]
    decide
  · rw [if_pos (by rw [h]; decide)]
    simp

/-- Witness for `image_check_max_pixels_correct`: `101 × 1` is rejected with
ceiling 100 and accepted with ceiling 0. -/
theorem image_check_max_pixels_correct_witness :
    image_check_max_pixels 101 1 100 = false ∧ image_check_max_pixels 101 1 0 = true :=
  ⟨(image_check_max_pixels_correct 101 1 100 (by decide) (by decide)).2.2.1 (by decide),
   (image_check_max_pixels_correct 101 1 0 (by decide) (by decide)).2.2.2 (by decide)⟩

/-- **C4, counterexample**: `image_alloc_pixels` does not report a
distinguishable error kind per failure cause.  Three different causes —
invalid dimensions (`width = 0`), ceiling exceeded (`101 > 100`) and
arithmetic overflow (`rowbytes * height` over `SIZE_MAX`) — all produce the
very same failure value; the C function returns a bare `false` for each. -/
theorem image_alloc_pixels_indistinguishable_failures :
    image_alloc_pixels 0 5 3 3 100 = none ∧
    image_alloc_pixels 101 1 3 303 100 = none ∧
    image_alloc_pixels 1 2 3 18446744073709551615 0 = none := by
  refine ⟨by decide, by decide, ?_⟩
  unfold image_alloc_pixels image_check_max_pixels
  norm_num [image_validate_dims, checked_mul_size, SIZE_MAX]

/-- **C4, amended**: `image_alloc_pixels` validates the dimensions, the
`rowbytes != 0` requirement and the pixel ceiling, and computes
`rowbytes * height` by checked multiply; it fails — with the single,
undifferentiated failure value the `bool` return affords — exactly on invalid
dimensions, zero `rowbytes`, a failed ceiling check, or multiply overflow, and
otherwise allocates exactly `rowbytes * height` bytes.  (Allocation failure,
the fourth cause in the claim, yields the same undifferentiated `false` in C
and is not representable in this pure model.) -/
theorem image_alloc_pixels_spec (width height channels rowbytes ceiling : Nat)
    (hr : rowbytes ≤ SIZE_MAX) (hh : height ≤ SIZE_MAX) :
    (image_alloc_pixels width height channels rowbytes ceiling = none ↔
      (image_validate_dims width height channels = false ∨ rowbytes = 0 ∨
       image_check_max_pixels width height ceiling = false ∨
       SIZE_MAX < rowbytes * height)) ∧
    (∀ total, image_alloc_pixels width height channels rowbytes ceiling = some total →
      total = rowbytes * height) := by
  unfold image_alloc_pixels
  rw [checked_mul_size_spec rowbytes height hr hh]
  by_cases h1 : image_validate_dims width height channels = false
  · simp [h1]
  · rw [Bool.not_eq_false] at h1
    by_cases h2 : rowbytes = 0
    · simp [h1, h2]
    · by_cases h3 : image_check_max_pixels width height ceiling = false
      · simp [h1, h2, h3]
      · rw [Bool.not_eq_false] at h3
        by_cases h4 : rowbytes * height ≤ SIZE_MAX
        · simp [h1, h2, h3, h4]
        · simp [h1, h2, h3, h4]
          omega

/-- Witness for `image_alloc_pixels_spec` at a concrete input. -/
theorem image_alloc_pixels_spec_witness :
    image_alloc_pixels 2 3 4 8 0 = some 24 ∧
    image_alloc_pixels 2 3 5 8 0 = none :=
  ⟨by decide,
   (image_alloc_pixels_spec 2 3 5 8 0 (by decide) (by decide)).1.mpr
     (Or.inl (by decide))⟩

/-! ## QOI decoder-loop helper lemmas -/

theorem qoi_hashPx_lt (p : Px) : qoi_hashPx p < 64 :=
  Nat.mod_lt _ (by decide)

theorem list_set_getD_self (l : List Px) (i : Nat) (a : Px)
    (hlen : i < l.length) (hget : l.getD i ⟨0, 0, 0, 0⟩ = a) : l.set i a = l := by
  induction l generalizing i with
  | nil => simp at hlen
  | cons hd tl ih =>
    cases i with
    | zero => simp_all
    | succ j =>
      simp only [List.getD_cons_succ] at hget
      simp only [List.length_cons, Nat.succ_lt_succ_iff] at hlen
      simp [List.set, ih j hlen hget]

theorem qoiCacheSet_length (cache : List Px) (p : Px) :
    (qoiCacheSet cache p).length = cache.length := by
  simp [qoiCacheSet]

theorem qoi_decode_loop_zero (bytes : List Nat) (px : Px) (cache : List Px) :
    qoi_decode_loop bytes 0 px cache = some ([], bytes) := by
  cases bytes <;> rw [qoi_decode_loop]

/-- Decoder step for a RUN op byte (`0xc0 ≤ b ≤ 0xfd`): re-emit the running
pixel `(b & 0x3f) + 1` times, clamped to the pixels remaining. -/
theorem qoi_decode_loop_run_step (b : Nat) (bytes : List Nat) (n : Nat)
    (px : Px) (cache : List Px) (h1 : 192 ≤ b) (h2 : b ≤ 253) :
    qoi_decode_loop (b :: bytes) (n + 1) px cache =
      (qoi_decode_loop bytes (n + 1 - min (b % 64 + 1) (n + 1)) px cache).map
        (fun pr => (List.replicate (min (b % 64 + 1) (n + 1)) px ++ pr.1, pr.2)) := by
  have hb : b % 256 = b := Nat.mod_eq_of_lt (by omega)
  rw [qoi_decode_loop.eq_def]
  dsimp only []
  rw [hb, if_neg (by omega), if_neg (by omega), if_neg (by omega), if_neg (by omega),
      if_neg (by omega)]

/-- Decoder behaviour on an exact-length run: a RUN op with count `r ≤`
the remaining pixel budget `r + m` produces `r` copies and continues. -/
theorem qoi_decode_loop_run_exact (r m : Nat) (bytes : List Nat)
    (px : Px) (cache : List Px) (h1 : 1 ≤ r) (h2 : r ≤ 62) :
    qoi_decode_loop ((192 + (r - 1)) :: bytes) (r + m) px cache =
      (qoi_decode_loop bytes m px cache).map
        (fun pr => (List.replicate r px ++ pr.1, pr.2)) := by
  have hn : r + m = (r + m - 1) + 1 := by omega
  rw [hn, qoi_decode_loop_run_step (192 + (r - 1)) bytes (r + m - 1) px cache
        (by omega) (by omega)]
  have hmod : (192 + (r - 1)) % 64 + 1 = r := by omega
  rw [hmod]
  have hmin : min r (r + m - 1 + 1) = r := by omega
  rw [hmin]
  have hsub : r + m - 1 + 1 - r = m := by omega
  rw [hsub]

/-- Decoder step for the RGB op (`0xfe` plus three payload bytes). -/
theorem qoi_decode_loop_rgb_step (r g bl : Nat) (bytes : List Nat) (n : Nat)
    (px : Px) (cache : List Px) :
    qoi_decode_loop (254 :: r :: g :: bl :: bytes) (n + 1) px cache =
      (qoi_decode_loop bytes n ⟨r % 256, g % 256, bl % 256, px.a⟩
          (qoiCacheSet cache ⟨r % 256, g % 256, bl % 256, px.a⟩)).map
        (fun pr => ((⟨r % 256, g % 256, bl % 256, px.a⟩ : Px) :: pr.1, pr.2)) := by
  rw [qoi_decode_loop.eq_def]
  norm_num

/-- Decoder step for the RGBA op (`0xff` plus four payload bytes). -/
theorem qoi_decode_loop_rgba_step (r g bl a : Nat) (bytes : List Nat) (n : Nat)
    (px : Px) (cache : List Px) :
    qoi_decode_loop (255 :: r :: g :: bl :: a :: bytes) (n + 1) px cache =
      (qoi_decode_loop bytes n ⟨r % 256, g % 256, bl % 256, a % 256⟩
          (qoiCacheSet cache ⟨r % 256, g % 256, bl % 256, a % 256⟩)).map
        (fun pr => ((⟨r % 256, g % 256, bl % 256, a % 256⟩ : Px) :: pr.1, pr.2)) := by
  rw [qoi_decode_loop.eq_def]
  norm_num

/-- Decoder step for an INDEX op byte (`b < 64`): the pixel becomes cache slot
`b`, and the cache-update line rewrites that very slot. -/
theorem qoi_decode_loop_index_step (b : Nat) (bytes : List Nat) (n : Nat)
    (px : Px) (cache : List Px) (hb : b < 64) :
    qoi_decode_loop (b :: bytes) (n + 1) px cache =
      (qoi_decode_loop bytes n (qoiCacheGet cache b)
          (qoiCacheSet cache (qoiCacheGet cache b))).map
        (fun pr => (qoiCacheGet cache b :: pr.1, pr.2)) := by
  have h256 : b % 256 = b := Nat.mod_eq_of_lt (by omega)
  rw [qoi_decode_loop.eq_def]
  dsimp only []
  rw [h256, if_neg (by omega), if_neg (by omega), if_pos (by omega)]

/-- Decoder step for a DIFF op byte (`0x40 ≤ b ≤ 0x7f`): each channel moves by
its 2-bit field minus 2, alpha unchanged. -/
theorem qoi_decode_loop_diff_step (b : Nat) (bytes : List Nat) (n : Nat)
    (px : Px) (cache : List Px) (h1 : 64 ≤ b) (h2 : b ≤ 127) :
    qoi_decode_loop (b :: bytes) (n + 1) px cache =
      (qoi_decode_loop bytes n
          ⟨byteAddI px.r ((b / 16 % 4 : Nat) - (2 : Int)),
           byteAddI px.g ((b / 4 % 4 : Nat) - (2 : Int)),
           byteAddI px.b ((b % 4 : Nat) - (2 : Int)), px.a⟩
          (qoiCacheSet cache
            ⟨byteAddI px.r ((b / 16 % 4 : Nat) - (2 : Int)),
             byteAddI px.g ((b / 4 % 4 : Nat) - (2 : Int)),
             byteAddI px.b ((b % 4 : Nat) - (2 : Int)), px.a⟩)).map
        (fun pr => ((⟨byteAddI px.r ((b / 16 % 4 : Nat) - (2 : Int)),
                      byteAddI px.g ((b / 4 % 4 : Nat) - (2 : Int)),
                      byteAddI px.b ((b % 4 : Nat) - (2 : Int)), px.a⟩ : Px) :: pr.1,
                    pr.2)) := by
  have hb : b % 256 = b := Nat.mod_eq_of_lt (by omega)
  rw [qoi_decode_loop.eq_def]
  dsimp only []
  rw [hb, if_neg (by omega), if_neg (by omega), if_neg (by omega), if_pos (by omega)]

/-- Decoder step for a LUMA op byte (`0x80 ≤ b ≤ 0xbf`) with its payload
byte: green moves by `(b & 0x3f) - 32`, red and blue by that plus the nibble
of the payload minus 8. -/
theorem qoi_decode_loop_luma_step (b b2 : Nat) (bytes : List Nat) (n : Nat)
    (px : Px) (cache : List Px) (h1 : 128 ≤ b) (h2 : b ≤ 191) :
    qoi_decode_loop (b :: b2 :: bytes) (n + 1) px cache =
      (qoi_decode_loop bytes n
          ⟨byteAddI px.r (((b % 64 : Nat) - (32 : Int)) - 8 + (b2 % 256 / 16 % 16 : Nat)),
           byteAddI px.g ((b % 64 : Nat) - (32 : Int)),
           byteAddI px.b (((b % 64 : Nat) - (32 : Int)) - 8 + (b2 % 256 % 16 : Nat)), px.a⟩
          (qoiCacheSet cache
            ⟨byteAddI px.r (((b % 64 : Nat) - (32 : Int)) - 8 + (b2 % 256 / 16 % 16 : Nat)),
             byteAddI px.g ((b % 64 : Nat) - (32 : Int)),
             byteAddI px.b (((b % 64 : Nat) - (32 : Int)) - 8 + (b2 % 256 % 16 : Nat)),
             px.a⟩)).map
        (fun pr =>
          ((⟨byteAddI px.r (((b % 64 : Nat) - (32 : Int)) - 8 + (b2 % 256 / 16 % 16 : Nat)),
             byteAddI px.g ((b % 64 : Nat) - (32 : Int)),
             byteAddI px.b (((b % 64 : Nat) - (32 : Int)) - 8 + (b2 % 256 % 16 : Nat)),
             px.a⟩ : Px) :: pr.1, pr.2)) := by
  have hb : b % 256 = b := Nat.mod_eq_of_lt (by omega)
  rw [qoi_decode_loop.eq_def]
  dsimp only []
  rw [hb, if_neg (by omega), if_neg (by omega), if_neg (by omega), if_neg (by omega),
      if_pos (by omega), if_neg (by simp)]
  simp only [List.getD_cons_zero, List.drop_succ_cons, List.drop_zero]

/-! ## Encoder case lemmas and the one-op simulation step -/

theorem qoi_encode_px_index (px px_prev : Px) (cache : List Px)
    (hhit : qoiCacheGet cache (qoi_hashPx px) = px) :
    qoi_encode_px px px_prev cache = ([qoi_hashPx px], cache) := by
  unfold qoi_encode_px
  rw [if_pos hhit]

theorem qoi_encode_px_diff (px px_prev : Px) (cache : List Px)
    (hmiss : ¬ qoiCacheGet cache (qoi_hashPx px) = px) (halpha : px.a = px_prev.a)
    (hd : -3 < (px.r : Int) - px_prev.r ∧ (px.r : Int) - px_prev.r < 2 ∧
          -3 < (px.g : Int) - px_prev.g ∧ (px.g : Int) - px_prev.g < 2 ∧
          -3 < (px.b : Int) - px_prev.b ∧ (px.b : Int) - px_prev.b < 2) :
    qoi_encode_px px px_prev cache =
      ([64 + 16 * ((px.r : Int) - px_prev.r + 2).toNat +
          4 * ((px.g : Int) - px_prev.g + 2).toNat +
          ((px.b : Int) - px_prev.b + 2).toNat],
       cache.set (qoi_hashPx px) px) := by
  unfold qoi_encode_px
  rw [if_neg hmiss, if_pos halpha, if_pos hd]

theorem qoi_encode_px_luma (px px_prev : Px) (cache : List Px)
    (hmiss : ¬ qoiCacheGet cache (qoi_hashPx px) = px) (halpha : px.a = px_prev.a)
    (hnd : ¬ (-3 < (px.r : Int) - px_prev.r ∧ (px.r : Int) - px_prev.r < 2 ∧
          -3 < (px.g : Int) - px_prev.g ∧ (px.g : Int) - px_prev.g < 2 ∧
          -3 < (px.b : Int) - px_prev.b ∧ (px.b : Int) - px_prev.b < 2))
    (hl : -9 < ((px.r : Int) - px_prev.r) - ((px.g : Int) - px_prev.g) ∧
          ((px.r : Int) - px_prev.r) - ((px.g : Int) - px_prev.g) < 8 ∧
          -33 < (px.g : Int) - px_prev.g ∧ (px.g : Int) - px_prev.g < 32 ∧
          -9 < ((px.b : Int) - px_prev.b) - ((px.g : Int) - px_prev.g) ∧
          ((px.b : Int) - px_prev.b) - ((px.g : Int) - px_prev.g) < 8) :
    qoi_encode_px px px_prev cache =
      ([128 + ((px.g : Int) - px_prev.g + 32).toNat,
        16 * (((px.r : Int) - px_prev.r) - ((px.g : Int) - px_prev.g) + 8).toNat +
          (((px.b : Int) - px_prev.b) - ((px.g : Int) - px_prev.g) + 8).toNat],
       cache.set (qoi_hashPx px) px) := by
  unfold qoi_encode_px
  rw [if_neg hmiss, if_pos halpha, if_neg hnd, if_pos hl]

theorem qoi_encode_px_rgb (px px_prev : Px) (cache : List Px)
    (hmiss : ¬ qoiCacheGet cache (qoi_hashPx px) = px) (halpha : px.a = px_prev.a)
    (hnd : ¬ (-3 < (px.r : Int) - px_prev.r ∧ (px.r : Int) - px_prev.r < 2 ∧
          -3 < (px.g : Int) - px_prev.g ∧ (px.g : Int) - px_prev.g < 2 ∧
          -3 < (px.b : Int) - px_prev.b ∧ (px.b : Int) - px_prev.b < 2))
    (hnl : ¬ (-9 < ((px.r : Int) - px_prev.r) - ((px.g : Int) - px_prev.g) ∧
          ((px.r : Int) - px_prev.r) - ((px.g : Int) - px_prev.g) < 8 ∧
          -33 < (px.g : Int) - px_prev.g ∧ (px.g : Int) - px_prev.g < 32 ∧
          -9 < ((px.b : Int) - px_prev.b) - ((px.g : Int) - px_prev.g) ∧
          ((px.b : Int) - px_prev.b) - ((px.g : Int) - px_prev.g) < 8)) :
    qoi_encode_px px px_prev cache =
      ([254, px.r, px.g, px.b], cache.set (qoi_hashPx px) px) := by
  unfold qoi_encode_px
  rw [if_neg hmiss, if_pos halpha, if_neg hnd, if_neg hnl]

theorem qoi_encode_px_rgba (px px_prev : Px) (cache : List Px)
    (hmiss : ¬ qoiCacheGet cache (qoi_hashPx px) = px) (halpha : ¬ px.a = px_prev.a) :
    qoi_encode_px px px_prev cache =
      ([255, px.r, px.g, px.b, px.a], cache.set (qoi_hashPx px) px) := by
  unfold qoi_encode_px
  rw [if_neg hmiss, if_neg halpha]

theorem Px.mk_eq (p : Px) (e1 e2 e3 e4 : Nat) (h1 : e1 = p.r) (h2 : e2 = p.g)
    (h3 : e3 = p.b) (h4 : e4 = p.a) : (⟨e1, e2, e3, e4⟩ : Px) = p := by
  cases p
  simp_all

/-- One-op simulation: decoding the bytes `qoi_encode_px` emits for a pixel,
from the matching decoder state, produces exactly that pixel and the matching
successor state. -/
theorem qoi_step_sim (px prev : Px) (cache : List Px) (tail : List Nat) (n : Nat)
    (hv : PxValid px) (hvp : PxValid prev) (hlen : cache.length = 64) :
    qoi_decode_loop ((qoi_encode_px px prev cache).1 ++ tail) (n + 1) prev cache =
      (qoi_decode_loop tail n px (qoi_encode_px px prev cache).2).map
        (fun pr => (px :: pr.1, pr.2)) := by
  obtain ⟨hvr, hvg, hvb, hva⟩ := hv
  obtain ⟨hpr, hpg, hpb, hpa⟩ := hvp
  by_cases hhit : qoiCacheGet cache (qoi_hashPx px) = px
  · rw [qoi_encode_px_index px prev cache hhit]
    simp only [List.cons_append, List.nil_append]
    rw [qoi_decode_loop_index_step _ _ _ _ _ (qoi_hashPx_lt px), hhit]
    have hset : qoiCacheSet cache px = cache :=
      list_set_getD_self cache (qoi_hashPx px) px (hlen ▸ qoi_hashPx_lt px) hhit
    rw [hset]
  · by_cases halpha : px.a = prev.a
    · by_cases hd : -3 < (px.r : Int) - prev.r ∧ (px.r : Int) - prev.r < 2 ∧
          -3 < (px.g : Int) - prev.g ∧ (px.g : Int) - prev.g < 2 ∧
          -3 < (px.b : Int) - prev.b ∧ (px.b : Int) - prev.b < 2
      · rw [qoi_encode_px_diff px prev cache hhit halpha hd]
        obtain ⟨h1, h2, h3, h4, h5, h6⟩ := hd
        simp only [List.cons_append, List.nil_append]
        rw [qoi_decode_loop_diff_step _ _ _ _ _ (by omega) (by omega)]
        have hpx2 : (⟨byteAddI prev.r
              (((64 + 16 * ((px.r : Int) - prev.r + 2).toNat +
                  4 * ((px.g : Int) - prev.g + 2).toNat +
                  ((px.b : Int) - prev.b + 2).toNat) / 16 % 4 : Nat) - (2 : Int)),
            byteAddI prev.g
              (((64 + 16 * ((px.r : Int) - prev.r + 2).toNat +
                  4 * ((px.g : Int) - prev.g + 2).toNat +
                  ((px.b : Int) - prev.b + 2).toNat) / 4 % 4 : Nat) - (2 : Int)),
            byteAddI prev.b
              (((64 + 16 * ((px.r : Int) - prev.r + 2).toNat +
                  4 * ((px.g : Int) - prev.g + 2).toNat +
                  ((px.b : Int) - prev.b + 2).toNat) % 4 : Nat) - (2 : Int)),
            prev.a⟩ : Px) = px := by
          apply Px.mk_eq <;> (try unfold byteAddI) <;> omega
        rw [hpx2]
        rfl
      · by_cases hl : -9 < ((px.r : Int) - prev.r) - ((px.g : Int) - prev.g) ∧
            ((px.r : Int) - prev.r) - ((px.g : Int) - prev.g) < 8 ∧
            -33 < (px.g : Int) - prev.g ∧ (px.g : Int) - prev.g < 32 ∧
            -9 < ((px.b : Int) - prev.b) - ((px.g : Int) - prev.g) ∧
            ((px.b : Int) - prev.b) - ((px.g : Int) - prev.g) < 8
        · rw [qoi_encode_px_luma px prev cache hhit halpha hd hl]
          obtain ⟨h1, h2, h3, h4, h5, h6⟩ := hl
          simp only [List.cons_append, List.nil_append]
          rw [qoi_decode_loop_luma_step _ _ _ _ _ _ (by omega) (by omega)]
          have hpx2 : (⟨byteAddI prev.r
                ((((128 + ((px.g : Int) - prev.g + 32).toNat) % 64 : Nat) - (32 : Int)) - 8 +
                  ((16 * (((px.r : Int) - prev.r) - ((px.g : Int) - prev.g) + 8).toNat +
                     (((px.b : Int) - prev.b) - ((px.g : Int) - prev.g) + 8).toNat) % 256
                    / 16 % 16 : Nat)),
              byteAddI prev.g (((128 + ((px.g : Int) - prev.g + 32).toNat) % 64 : Nat) - (32 : Int)),
              byteAddI prev.b
                ((((128 + ((px.g : Int) - prev.g + 32).toNat) % 64 : Nat) - (32 : Int)) - 8 +
                  ((16 * (((px.r : Int) - prev.r) - ((px.g : Int) - prev.g) + 8).toNat +
                     (((px.b : Int) - prev.b) - ((px.g : Int) - prev.g) + 8).toNat) % 256
                    % 16 : Nat)),
              prev.a⟩ : Px) = px := by
            obtain ⟨tg, htg⟩ : ∃ t : Nat, ((px.g : Int) - prev.g + 32).toNat = t := ⟨_, rfl⟩
            obtain ⟨tr, htr⟩ : ∃ t : Nat,
                (((px.r : Int) - prev.r) - ((px.g : Int) - prev.g) + 8).toNat = t := ⟨_, rfl⟩
            obtain ⟨tb, htb⟩ : ∃ t : Nat,
                (((px.b : Int) - prev.b) - ((px.g : Int) - prev.g) + 8).toNat = t := ⟨_, rfl⟩
            have htg2 : (tg : Int) = (px.g : Int) - prev.g + 32 := by omega
            have htr2 : (tr : Int) = ((px.r : Int) - prev.r) - ((px.g : Int) - prev.g) + 8 := by
              omega
            have htb2 : (tb : Int) = ((px.b : Int) - prev.b) - ((px.g : Int) - prev.g) + 8 := by
              omega
            rw [htg, htr, htb]
            have hm1 : (128 + tg) % 64 = tg := by omega
            have hm2 : (16 * tr + tb) % 256 = 16 * tr + tb := by omega
            rw [hm1, hm2]
            have hm3 : (16 * tr + tb) / 16 % 16 = tr := by omega
            have hm4 : (16 * tr + tb) % 16 = tb := by omega
            rw [hm3, hm4]
            apply Px.mk_eq <;> (try unfold byteAddI) <;> omega
          rw [hpx2]
          rfl
        · rw [qoi_encode_px_rgb px prev cache hhit halpha hd hl]
          simp only [List.cons_append, List.nil_append]
          rw [qoi_decode_loop_rgb_step]
          have hpx2 : (⟨px.r % 256, px.g % 256, px.b % 256, prev.a⟩ : Px) = px := by
            apply Px.mk_eq <;> omega
          rw [hpx2]
          rfl
    · rw [qoi_encode_px_rgba px prev cache hhit halpha]
      simp only [List.cons_append, List.nil_append]
      rw [qoi_decode_loop_rgba_step]
      have hpx2 : (⟨px.r % 256, px.g % 256, px.b % 256, px.a % 256⟩ : Px) = px := by
        apply Px.mk_eq <;> omega
      rw [hpx2]
      rfl

theorem qoi_encode_px_snd_length (px px_prev : Px) (cache : List Px) :
    (qoi_encode_px px px_prev cache).2.length = cache.length := by
  unfold qoi_encode_px
  dsimp only []
  split
  · rfl
  · split
    · split
      · simp
      · split <;> simp
    · simp

/-- Loop simulation: decoding the bytes the encoder loop emits from a matching
state — `run` pending repetitions of `prev` and the same cache — recovers the
pending pixels followed by the encoded pixels, leaving `rest` unread. -/
theorem qoi_loop_sim (pixels : List Px) :
    ∀ (prev : Px) (cache : List Px) (run : Nat) (rest : List Nat),
      (∀ p ∈ pixels, PxValid p) → PxValid prev → cache.length = 64 →
      run ≤ 61 → (pixels = [] → run = 0) →
      qoi_decode_loop (qoi_encode_loop pixels prev cache run ++ rest)
          (run + pixels.length) prev cache =
        some (List.replicate run prev ++ pixels, rest) := by
  induction pixels with
  | nil =>
    intro prev cache run rest hv hvp hlen hrun hnil
    rw [hnil rfl]
    simp [qoi_encode_loop, qoi_decode_loop_zero]
  | cons px pxs ih =>
    intro prev cache run rest hv hvp hlen hrun hnil
    have hvpx : PxValid px := hv px (List.mem_cons_self px pxs)
    have hvpxs : ∀ p ∈ pxs, PxValid p := fun p hp => hv p (List.mem_cons_of_mem px hp)
    rw [qoi_encode_loop]
    by_cases hpx : px = prev
    · subst hpx
      rw [if_pos rfl]
      dsimp only []
      by_cases hflush : run + 1 = 62 ∨ pxs = []
      · rw [if_pos hflush]
        have hn : run + (px :: pxs).length = (run + 1) + pxs.length := by
          simp [List.length_cons]
          omega
        have ih0 := ih px cache 0 rest hvpxs hvpx hlen (by omega) (fun _ => rfl)
        rw [Nat.zero_add] at ih0
        rw [List.cons_append, hn,
            qoi_decode_loop_run_exact (run + 1) pxs.length _ px cache (by omega) (by omega),
            ih0]
        simp [List.replicate_succ']
      · rw [if_neg hflush]
        have hn : run + (px :: pxs).length = (run + 1) + pxs.length := by
          simp [List.length_cons]
          omega
        rw [hn, ih px cache (run + 1) rest hvpxs hvpx hlen (by omega)
              (fun hp => ((hflush (Or.inr hp)).elim))]
        simp [List.replicate_succ']
    · rw [if_neg hpx]
      dsimp only []
      by_cases hr0 : 0 < run
      · rw [if_pos hr0]
        have hn : run + (px :: pxs).length = run + (pxs.length + 1) := by
          simp [List.length_cons]
        have ih0 := ih px (qoi_encode_px px prev cache).2 0 rest hvpxs hvpx
          (by rw [qoi_encode_px_snd_length, hlen]) (by omega) (fun _ => rfl)
        rw [Nat.zero_add] at ih0
        rw [hn, List.cons_append, List.nil_append, List.cons_append, List.append_assoc,
            qoi_decode_loop_run_exact run (pxs.length + 1) _ prev cache (by omega) (by omega),
            qoi_step_sim px prev cache _ pxs.length hvpx hvp hlen, ih0]
        simp
      · rw [if_neg hr0]
        have hrz : run = 0 := by omega
        subst hrz
        have hn : (0 : Nat) + (px :: pxs).length = pxs.length + 1 := by
          simp [List.length_cons]
        have ih0 := ih px (qoi_encode_px px prev cache).2 0 rest hvpxs hvpx
          (by rw [qoi_encode_px_snd_length, hlen]) (by omega) (fun _ => rfl)
        rw [Nat.zero_add] at ih0
        rw [hn, List.nil_append, List.append_assoc,
            qoi_step_sim px prev cache _ pxs.length hvpx hvp hlen, ih0]
        simp

/-! ## Claim C9: decoder writes stay in bounds, RUN is clamped -/

theorem qoi_decode_loop_length (n : Nat) :
    ∀ (bytes : List Nat) (px : Px) (cache : List Px) (out : List Px × List Nat),
      qoi_decode_loop bytes n px cache = some out → out.1.length = n := by
  induction n using Nat.strong_induction_on with
  | _ n ih =>
    intro bytes px cache out h
    cases n with
    | zero =>
      rw [qoi_decode_loop_zero] at h
      obtain rfl := Option.some.inj h
      rfl
    | succ m =>
      cases bytes with
      | nil =>
        rw [qoi_decode_loop.eq_def] at h
        simp at h
      | cons b bs =>
        rw [qoi_decode_loop.eq_def] at h
        dsimp only [] at h
        repeat' split at h
        all_goals first
          | exact Option.noConfusion h
          | (obtain ⟨pr, hpr, rfl⟩ := Option.map_eq_some'.mp h
             have hlen := ih m m.lt_succ_self _ _ _ _ hpr
             simp [hlen])
          | (obtain ⟨pr, hpr, rfl⟩ := Option.map_eq_some'.mp h
             have hlen := ih (m + 1 - min (b % 256 % 64 + 1) (m + 1)) (by omega) _ _ _ _ hpr
             simp [hlen]
             try omega)

theorem qoi_decode_loop_run_clamp (b : Nat) (bytes : List Nat) (n : Nat)
    (px : Px) (cache : List Px) (hb1 : 192 ≤ b) (hb2 : b ≤ 253) (hn : 1 ≤ n)
    (hcount : n ≤ b % 64 + 1) :
    qoi_decode_loop (b :: bytes) n px cache = some (List.replicate n px, bytes) := by
  obtain ⟨m, rfl⟩ : ∃ m, n = m + 1 := ⟨n - 1, by omega⟩
  rw [qoi_decode_loop_run_step b bytes m px cache hb1 hb2]
  have hmin : min (b % 64 + 1) (m + 1) = m + 1 := by omega
  rw [hmin, Nat.sub_self, qoi_decode_loop_zero]
  simp

/-- **C9**: during QOI decode no pixel write lands outside the output range —
a successful decode of an `n`-pixel budget produces exactly `n` pixels — and a
RUN op whose repeat count exceeds the pixels remaining is clamped at the image
end (the excess repetitions silently dropped), after which decoding succeeds
rather than failing. -/
theorem qoi_decode_in_bounds_and_run_clamped :
    (∀ (bytes : List Nat) (n : Nat) (px : Px) (cache : List Px)
        (out : List Px × List Nat),
       qoi_decode_loop bytes n px cache = some out → out.1.length = n) ∧
    (∀ (b : Nat) (bytes : List Nat) (n : Nat) (px : Px) (cache : List Px),
       192 ≤ b → b ≤ 253 → 1 ≤ n → n ≤ b % 64 + 1 →
       qoi_decode_loop (b :: bytes) n px cache =
         some (List.replicate n px, bytes)) :=
  ⟨fun bytes n px cache out h => qoi_decode_loop_length n bytes px cache out h,
   fun b bytes n px cache h1 h2 h3 h4 =>
     qoi_decode_loop_run_clamp b bytes n px cache h1 h2 h3 h4⟩

/-- Witness for `qoi_decode_in_bounds_and_run_clamped`: a RUN op with count 62
against a remaining budget of 3 pixels yields exactly the 3 remaining pixels
and succeeds. -/
theorem qoi_decode_in_bounds_and_run_clamped_witness :
    qoi_decode_loop [253, 9] 3 ⟨1, 2, 3, 4⟩ qoiCacheInit =
      some (List.replicate 3 ⟨1, 2, 3, 4⟩, [9]) ∧
    (List.replicate 3 (⟨1, 2, 3, 4⟩ : Px), [9]).1.length = 3 := by
  have h := qoi_decode_in_bounds_and_run_clamped.2 253 [9] 3 ⟨1, 2, 3, 4⟩ qoiCacheInit
    (by decide) (by decide) (by decide) (by decide)
  exact ⟨h, qoi_decode_in_bounds_and_run_clamped.1 [253, 9] 3 ⟨1, 2, 3, 4⟩ qoiCacheInit
    (List.replicate 3 ⟨1, 2, 3, 4⟩, [9]) h⟩

/-! ## Claim C10: the end marker is never read or validated -/

theorem qoi_decode_loop_append (n : Nat) :
    ∀ (bytes extra : List Nat) (px : Px) (cache : List Px) (pxs : List Px)
      (rest : List Nat),
      qoi_decode_loop bytes n px cache = some (pxs, rest) →
      qoi_decode_loop (bytes ++ extra) n px cache = some (pxs, rest ++ extra) := by
  induction n using Nat.strong_induction_on with
  | _ n ih =>
    intro bytes extra px cache pxs rest h
    cases n with
    | zero =>
      rw [qoi_decode_loop_zero] at h
      obtain ⟨h1, h2⟩ := Prod.mk.injEq .. ▸ Option.some.inj h
      subst h1 h2
      rw [qoi_decode_loop_zero]
    | succ m =>
      cases bytes with
      | nil =>
        rw [qoi_decode_loop.eq_def] at h
        simp at h
      | cons b bs =>
        rw [qoi_decode_loop.eq_def] at h
        rw [List.cons_append, qoi_decode_loop.eq_def]
        dsimp only [] at h ⊢
        by_cases h254 : b % 256 = 254
        · rw [if_pos h254] at h ⊢
          by_cases hlen : bs.length < 3
          · rw [if_pos hlen] at h
            exact Option.noConfusion h
          · rw [if_neg hlen] at h
            rw [if_neg (by simp only [List.length_append]; omega)]
            rw [List.getD_append bs extra 0 0 (by omega),
                List.getD_append bs extra 0 1 (by omega),
                List.getD_append bs extra 0 2 (by omega),
                List.drop_append_of_le_length (by omega)]
            obtain ⟨pr, hpr, heq⟩ := Option.map_eq_some'.mp h
            obtain ⟨pxs1, rest1⟩ := pr
            obtain ⟨h1, h2⟩ := Prod.mk.injEq .. ▸ heq
            subst h1 h2
            rw [ih m m.lt_succ_self _ extra _ _ _ _ hpr]
            rfl
        · rw [if_neg h254] at h ⊢
          by_cases h255 : b % 256 = 255
          · rw [if_pos h255] at h ⊢
            by_cases hlen : bs.length < 4
            · rw [if_pos hlen] at h
              exact Option.noConfusion h
            · rw [if_neg hlen] at h
              rw [if_neg (by simp only [List.length_append]; omega)]
              rw [List.getD_append bs extra 0 0 (by omega),
                  List.getD_append bs extra 0 1 (by omega),
                  List.getD_append bs extra 0 2 (by omega),
                  List.getD_append bs extra 0 3 (by omega),
                  List.drop_append_of_le_length (by omega)]
              obtain ⟨pr, hpr, heq⟩ := Option.map_eq_some'.mp h
              obtain ⟨pxs1, rest1⟩ := pr
              obtain ⟨h1, h2⟩ := Prod.mk.injEq .. ▸ heq
              subst h1 h2
              rw [ih m m.lt_succ_self _ extra _ _ _ _ hpr]
              rfl
          · rw [if_neg h255] at h ⊢
            by_cases hidx : b % 256 / 64 = 0
            · rw [if_pos hidx] at h ⊢
              obtain ⟨pr, hpr, heq⟩ := Option.map_eq_some'.mp h
              obtain ⟨pxs1, rest1⟩ := pr
              obtain ⟨h1, h2⟩ := Prod.mk.injEq .. ▸ heq
              subst h1 h2
              rw [ih m m.lt_succ_self _ extra _ _ _ _ hpr]
              rfl
            · rw [if_neg hidx] at h ⊢
              by_cases hdiff : b % 256 / 64 = 1
              · rw [if_pos hdiff] at h ⊢
                obtain ⟨pr, hpr, heq⟩ := Option.map_eq_some'.mp h
                obtain ⟨pxs1, rest1⟩ := pr
                obtain ⟨h1, h2⟩ := Prod.mk.injEq .. ▸ heq
                subst h1 h2
                rw [ih m m.lt_succ_self _ extra _ _ _ _ hpr]
                rfl
              · rw [if_neg hdiff] at h ⊢
                by_cases hluma : b % 256 / 64 = 2
                · rw [if_pos hluma] at h ⊢
                  by_cases hlen : bs.length < 1
                  · rw [if_pos hlen] at h
                    exact Option.noConfusion h
                  · rw [if_neg hlen] at h
                    rw [if_neg (by simp only [List.length_append]; omega)]
                    rw [List.getD_append bs extra 0 0 (by omega),
                        List.drop_append_of_le_length (by omega)]
                    obtain ⟨pr, hpr, heq⟩ := Option.map_eq_some'.mp h
                    obtain ⟨pxs1, rest1⟩ := pr
                    obtain ⟨h1, h2⟩ := Prod.mk.injEq .. ▸ heq
                    subst h1 h2
                    rw [ih m m.lt_succ_self _ extra _ _ _ _ hpr]
                    rfl
                · rw [if_neg hluma] at h ⊢
                  obtain ⟨pr, hpr, heq⟩ := Option.map_eq_some'.mp h
                  obtain ⟨pxs1, rest1⟩ := pr
                  obtain ⟨h1, h2⟩ := Prod.mk.injEq .. ▸ heq
                  subst h1 h2
                  rw [ih (m + 1 - min (b % 256 % 64 + 1) (m + 1)) (by omega) _ extra _ _ _ _ hpr]
                  rfl

/-! ## Pixel/byte conversion lemmas and header parsing -/

theorem qoiBytesToPixels3_length (k : Nat) :
    ∀ l : List Nat, l.length = 3 * k → (qoiBytesToPixels3 l).length = k := by
  induction k with
  | zero =>
    intro l hl
    have h0 : l.length = 0 := by omega
    obtain rfl := List.length_eq_zero.mp h0
    rfl
  | succ j ih =>
    intro l hl
    match l, hl with
    | r :: g :: b :: rest, hl =>
      rw [qoiBytesToPixels3, List.length_cons,
          ih rest (by simp at hl; omega)]

theorem qoiBytesToPixels4_length (k : Nat) :
    ∀ l : List Nat, l.length = 4 * k → (qoiBytesToPixels4 l).length = k := by
  induction k with
  | zero =>
    intro l hl
    have h0 : l.length = 0 := by omega
    obtain rfl := List.length_eq_zero.mp h0
    rfl
  | succ j ih =>
    intro l hl
    match l, hl with
    | r :: g :: b :: a :: rest, hl =>
      rw [qoiBytesToPixels4, List.length_cons,
          ih rest (by simp at hl; omega)]

theorem qoiBytesToPixels3_valid (k : Nat) :
    ∀ l : List Nat, l.length = 3 * k → (∀ b ∈ l, b < 256) →
      ∀ p ∈ qoiBytesToPixels3 l, PxValid p := by
  induction k with
  | zero =>
    intro l hl _
    have h0 : l.length = 0 := by omega
    obtain rfl := List.length_eq_zero.mp h0
    simp [qoiBytesToPixels3]
  | succ j ih =>
    intro l hl hb
    match l, hl with
    | r :: g :: b :: rest, hl =>
      rw [qoiBytesToPixels3]
      intro p hp
      rcases List.mem_cons.mp hp with hp | hp
      · subst hp
        exact ⟨hb r (by simp), hb g (by simp), hb b (by simp), by norm_num⟩
      · exact ih rest (by simp at hl; omega) (fun x hx => hb x (by simp [hx])) p hp

theorem qoiBytesToPixels4_valid (k : Nat) :
    ∀ l : List Nat, l.length = 4 * k → (∀ b ∈ l, b < 256) →
      ∀ p ∈ qoiBytesToPixels4 l, PxValid p := by
  induction k with
  | zero =>
    intro l hl _
    have h0 : l.length = 0 := by omega
    obtain rfl := List.length_eq_zero.mp h0
    simp [qoiBytesToPixels4]
  | succ j ih =>
    intro l hl hb
    match l, hl with
    | r :: g :: b :: a :: rest, hl =>
      rw [qoiBytesToPixels4]
      intro p hp
      rcases List.mem_cons.mp hp with hp | hp
      · subst hp
        exact ⟨hb r (by simp), hb g (by simp), hb b (by simp), hb a (by simp)⟩
      · exact ih rest (by simp at hl; omega) (fun x hx => hb x (by simp [hx])) p hp

theorem qoiPixelsToBytes3_roundtrip (k : Nat) :
    ∀ l : List Nat, l.length = 3 * k →
      qoiPixelsToBytes 3 (qoiBytesToPixels3 l) = l := by
  induction k with
  | zero =>
    intro l hl
    have h0 : l.length = 0 := by omega
    obtain rfl := List.length_eq_zero.mp h0
    rfl
  | succ j ih =>
    intro l hl
    match l, hl with
    | r :: g :: b :: rest, hl =>
      have := ih rest (by simp at hl; omega)
      rw [qoiBytesToPixels3]
      simp only [qoiPixelsToBytes] at this ⊢
      rw [if_neg (by norm_num : ¬ (3 : Nat) = 4)] at this ⊢
      rw [List.flatMap_cons, this]
      rfl

theorem qoiPixelsToBytes4_roundtrip (k : Nat) :
    ∀ l : List Nat, l.length = 4 * k →
      qoiPixelsToBytes 4 (qoiBytesToPixels4 l) = l := by
  induction k with
  | zero =>
    intro l hl
    have h0 : l.length = 0 := by omega
    obtain rfl := List.length_eq_zero.mp h0
    rfl
  | succ j ih =>
    intro l hl
    match l, hl with
    | r :: g :: b :: a :: rest, hl =>
      have := ih rest (by simp at hl; omega)
      rw [qoiBytesToPixels4]
      simp only [qoiPixelsToBytes] at this ⊢
      rw [if_pos trivial] at this ⊢
      rw [List.flatMap_cons, this]
      rfl

theorem read32be_write32be (v : Nat) (hv : v < 4294967296) :
    read32be (v / 16777216 % 256) (v / 65536 % 256) (v / 256 % 256) (v % 256) = v := by
  unfold read32be
  omega

/-- Reduction of `qoi_read` on a well-formed header followed by an arbitrary
op-stream body: the header checks pass and the result is governed by the
decoder loop on the body, with the colourspace byte `cs` read but ignored. -/
theorem qoi_read_header (w h ch cs : Nat) (body : List Nat) (max_pixels : Nat)
    (hw : 0 < w) (hh : 0 < h) (hwi : w ≤ 2147483647) (hhi : h ≤ 2147483647)
    (hch : ch = 3 ∨ ch = 4) (hceil : max_pixels = 0 ∨ w * h ≤ max_pixels) :
    qoi_read ([113, 111, 105, 102] ++ write32be w ++ write32be h ++ [ch, cs] ++ body)
        max_pixels =
      match qoi_decode_loop body (w * h) ⟨0, 0, 0, 255⟩ qoiCacheInit with
      | none => none
      | some (pxs, _) => some ⟨w, h, ch, qoiPixelsToBytes ch pxs⟩ := by
  have hwS : w ≤ SIZE_MAX := by unfold SIZE_MAX; omega
  have hhS : h ≤ SIZE_MAX := by unfold SIZE_MAX; omega
  have hwh : w * h ≤ SIZE_MAX :=
    le_trans (Nat.mul_le_mul hwi hhi) (by unfold SIZE_MAX; norm_num)
  have hwhS : w * h ≤ 4611686014132420609 := le_trans (Nat.mul_le_mul hwi hhi) (by norm_num)
  have hch4 : ch ≤ 4 := by rcases hch with h | h <;> omega
  have hwhc : w * h * ch ≤ SIZE_MAX :=
    le_trans (Nat.mul_le_mul hwhS hch4) (by unfold SIZE_MAX; norm_num)
  simp only [write32be, List.cons_append, List.nil_append]
  rw [qoi_read.eq_def]
  dsimp only []
  rw [if_neg (by decide)]
  rw [read32be_write32be w (by omega), read32be_write32be h (by omega)]
  rw [if_neg (by omega)]
  have hmod : ch % 256 = ch := Nat.mod_eq_of_lt (by omega)
  rw [hmod, if_neg (by rcases hch with h | h <;> simp [h])]
  rw [checked_mul_size_spec w h hwS hhS, if_pos hwh]
  dsimp only []
  rw [checked_mul_size_spec (w * h) ch hwh (le_trans hch4 (by unfold SIZE_MAX; norm_num)),
      if_pos hwhc]
  dsimp only []
  have hchk : image_check_max_pixels w h max_pixels = true := by
    unfold image_check_max_pixels
    rw [checked_mul_size_spec w h hwS hhS, if_pos hwh]
    rcases hceil with hc | hc <;> simp [hc]
  rw [hchk]
  rw [if_neg (by simp)]

/-- **C10**: QOI decode never reads or validates the 8-byte end marker: a byte
stream with a valid header whose ops produce exactly `width*height` pixels
decodes successfully with the marker missing, truncated or replaced by any
`trailing` bytes whatsoever, and the decoded image does not depend on
`trailing` (nor on the colourspace byte `cs`, which is read but ignored). -/
theorem qoi_read_ignores_end_marker (w h ch cs : Nat) (ops : List Nat)
    (max_pixels : Nat) (pxs : List Px)
    (hw : 0 < w) (hh : 0 < h) (hwi : w ≤ 2147483647) (hhi : h ≤ 2147483647)
    (hch : ch = 3 ∨ ch = 4) (hceil : max_pixels = 0 ∨ w * h ≤ max_pixels)
    (hdec : qoi_decode_loop ops (w * h) ⟨0, 0, 0, 255⟩ qoiCacheInit = some (pxs, [])) :
    ∀ trailing : List Nat,
      qoi_read ([113, 111, 105, 102] ++ write32be w ++ write32be h ++ [ch, cs] ++
          (ops ++ trailing)) max_pixels =
        some ⟨w, h, ch, qoiPixelsToBytes ch pxs⟩ := by
  intro trailing
  rw [qoi_read_header w h ch cs (ops ++ trailing) max_pixels hw hh hwi hhi hch hceil,
      qoi_decode_loop_append (w * h) ops trailing _ _ _ _ hdec]

/-- Witness for `qoi_read_ignores_end_marker`: a 1×1 RGB stream whose single
RGB op is followed by garbage instead of the end marker still decodes. -/
theorem qoi_read_ignores_end_marker_witness :
    qoi_read ([113, 111, 105, 102] ++ write32be 1 ++ write32be 1 ++ [3, 1] ++
        ([254, 7, 8, 9] ++ [99])) 0 =
      some ⟨1, 1, 3, qoiPixelsToBytes 3 [⟨7, 8, 9, 255⟩]⟩ := by
  have hdec : qoi_decode_loop [254, 7, 8, 9] (1 * 1) ⟨0, 0, 0, 255⟩ qoiCacheInit =
      some ([⟨7, 8, 9, 255⟩], []) := by
    rw [show (1 * 1 : Nat) = 0 + 1 by rfl,
        qoi_decode_loop_rgb_step 7 8 9 [] 0 ⟨0, 0, 0, 255⟩ qoiCacheInit,
        qoi_decode_loop_zero]
    rfl
  exact qoi_read_ignores_end_marker 1 1 3 1 [254, 7, 8, 9] 0 [⟨7, 8, 9, 255⟩]
    (by decide) (by decide) (by decide) (by decide) (Or.inl rfl) (Or.inl rfl) hdec [99]

/-! ## Claim C1: QOI round trip -/

/-- Reduction of `qoi_write` when the size checks pass: the output is header,
op stream, end marker. -/
theorem qoi_write_unfold (img : Image)
    (hw : 0 < img.width) (hh : 0 < img.height)
    (hwi : img.width ≤ 2147483647) (hhi : img.height ≤ 2147483647)
    (hch : img.channels = 3 ∨ img.channels = 4)
    (hsize : img.width * img.height * (img.channels + 1) + 22 ≤ SIZE_MAX) :
    qoi_write img = some
      ([113, 111, 105, 102] ++ write32be img.width ++ write32be img.height ++
        [img.channels, 1] ++
        qoi_encode_loop (qoiBytesToPixels img.channels img.pixels) ⟨0, 0, 0, 255⟩
          qoiCacheInit 0 ++
        [0, 0, 0, 0, 0, 0, 0, 1]) := by
  have hwS : img.width ≤ SIZE_MAX := by unfold SIZE_MAX; omega
  have hhS : img.height ≤ SIZE_MAX := by unfold SIZE_MAX; omega
  have hwh : img.width * img.height ≤ SIZE_MAX :=
    le_trans (Nat.mul_le_mul hwi hhi) (by unfold SIZE_MAX; norm_num)
  have hdb : img.width * img.height * (img.channels + 1) ≤ SIZE_MAX := by omega
  have hch1 : img.channels + 1 ≤ SIZE_MAX := by
    rcases hch with h | h <;> rw [h] <;> unfold SIZE_MAX <;> norm_num
  have hval : image_validate_dims img.width img.height img.channels = true := by
    unfold image_validate_dims
    rcases hch with h | h <;> simp [h, hw, hh]
  have hmodch : img.channels % 256 = img.channels := by
    rcases hch with h | h <;> rw [h]
  rw [qoi_write, if_neg (by rw [hval]; simp),
      checked_mul_size_spec img.width img.height hwS hhS, if_pos hwh]
  dsimp only []
  rw [checked_mul_size_spec (img.width * img.height) (img.channels + 1) hwh hch1,
      if_pos hdb]
  dsimp only []
  rw [checked_add_size_spec 14 _ (by unfold SIZE_MAX; norm_num) hdb,
      if_pos (by omega)]
  dsimp only []
  rw [checked_add_size_spec _ 8 (by omega) (by unfold SIZE_MAX; norm_num),
      if_pos (by omega)]
  dsimp only []
  rw [hmodch]


/-- **C1, counterexample**: an image satisfying every hypothesis of the claim
(positive dimensions representable as C `int`, channels 4, pixel count within
a pixel ceiling of 0 = unlimited, buffer of exactly `width*height*channels`
bytes) for which `qoi_write` nevertheless fails: the worst-case output size
`pixel_count * (channels+1)` overflows `size_t`, so no byte stream is produced
and `decode(encode(img))` cannot succeed. -/
def qoiOverflowImage : Image :=
  ⟨2147483647, 2147483647, 4, List.replicate (2147483647 * 2147483647 * 4) 0⟩

theorem qoi_write_overflow_failure :
    qoi_write qoiOverflowImage = none ∧
    0 < qoiOverflowImage.width ∧ 0 < qoiOverflowImage.height ∧
    qoiOverflowImage.channels = 4 ∧
    qoiOverflowImage.pixels.length =
      qoiOverflowImage.width * qoiOverflowImage.height * qoiOverflowImage.channels ∧
    ((0 : Nat) = 0 ∨ qoiOverflowImage.width * qoiOverflowImage.height ≤ 0) := by
  refine ⟨?_, by decide, by decide, rfl,
    List.length_replicate (2147483647 * 2147483647 * 4) 0, Or.inl rfl⟩
  rw [qoi_write]
  rw [if_neg (by decide)]
  rw [show qoiOverflowImage.width = 2147483647 from rfl,
      show qoiOverflowImage.height = 2147483647 from rfl,
      show qoiOverflowImage.channels = 4 from rfl]
  rw [checked_mul_size_spec 2147483647 2147483647 (by decide) (by decide),
      if_pos (by decide)]
  dsimp only []
  rw [checked_mul_size_spec (2147483647 * 2147483647) (4 + 1) (by decide) (by decide),
      if_neg (by decide)]

/-- **C1, amended**: QOI round trip.  For every `Image` with positive
dimensions in the C `int` range, channels 3 or 4, a pixel buffer of exactly
`width*height*channels` bytes, pixel count within the ceiling (or ceiling 0),
and — the amendment the counterexample forces — a worst-case encoded size
`width*height*(channels+1) + 22` that fits in `size_t`, encoding succeeds and
decoding the produced byte stream succeeds and yields an image with the same
width, height and channels whose pixel bytes are exactly the original's. -/
theorem qoi_round_trip (img : Image) (max_pixels : Nat)
    (hw : 0 < img.width) (hh : 0 < img.height)
    (hwi : img.width ≤ 2147483647) (hhi : img.height ≤ 2147483647)
    (hch : img.channels = 3 ∨ img.channels = 4)
    (hlen : img.pixels.length = img.width * img.height * img.channels)
    (hbytes : ∀ b ∈ img.pixels, b < 256)
    (hceil : max_pixels = 0 ∨ img.width * img.height ≤ max_pixels)
    (hsize : img.width * img.height * (img.channels + 1) + 22 ≤ SIZE_MAX) :
    ∃ bytes, qoi_write img = some bytes ∧ qoi_read bytes max_pixels = some img := by
  have hwS : img.width ≤ SIZE_MAX := by unfold SIZE_MAX; omega
  have hhS : img.height ≤ SIZE_MAX := by unfold SIZE_MAX; omega
  have hwh : img.width * img.height ≤ SIZE_MAX :=
    le_trans (Nat.mul_le_mul hwi hhi) (by unfold SIZE_MAX; norm_num)
  have hdb : img.width * img.height * (img.channels + 1) ≤ SIZE_MAX := by omega
  have hch1 : img.channels + 1 ≤ SIZE_MAX := by
    rcases hch with h | h <;> rw [h] <;> unfold SIZE_MAX <;> norm_num
  have hval : image_validate_dims img.width img.height img.channels = true := by
    unfold image_validate_dims
    rcases hch with h | h <;> simp [h, hw, hh]
  have hmodch : img.channels % 256 = img.channels := by
    rcases hch with h | h <;> rw [h]
  have hwrite := qoi_write_unfold img hw hh hwi hhi hch hsize
  have hpxlen : (qoiBytesToPixels img.channels img.pixels).length =
      img.width * img.height := by
    rcases hch with h | h
    · rw [h]
      unfold qoiBytesToPixels
      rw [if_neg (by norm_num)]
      exact qoiBytesToPixels3_length (img.width * img.height) _ (by rw [hlen, h]; ring)
    · rw [h]
      unfold qoiBytesToPixels
      rw [if_pos rfl]
      exact qoiBytesToPixels4_length (img.width * img.height) _ (by rw [hlen, h]; ring)
  have hpxvalid : ∀ p ∈ qoiBytesToPixels img.channels img.pixels, PxValid p := by
    rcases hch with h | h
    · rw [h]
      unfold qoiBytesToPixels
      rw [if_neg (by norm_num)]
      exact qoiBytesToPixels3_valid (img.width * img.height) _ (by rw [hlen, h]; ring) hbytes
    · rw [h]
      unfold qoiBytesToPixels
      rw [if_pos rfl]
      exact qoiBytesToPixels4_valid (img.width * img.height) _ (by rw [hlen, h]; ring) hbytes
  have hrt : qoiPixelsToBytes img.channels (qoiBytesToPixels img.channels img.pixels) =
      img.pixels := by
    rcases hch with h | h
    · rw [h]
      unfold qoiBytesToPixels
      rw [if_neg (by norm_num)]
      exact qoiPixelsToBytes3_roundtrip (img.width * img.height) _ (by rw [hlen, h]; ring)
    · rw [h]
      unfold qoiBytesToPixels
      rw [if_pos rfl]
      exact qoiPixelsToBytes4_roundtrip (img.width * img.height) _ (by rw [hlen, h]; ring)
  have hsim := qoi_loop_sim (qoiBytesToPixels img.channels img.pixels) ⟨0, 0, 0, 255⟩
    qoiCacheInit 0 [0, 0, 0, 0, 0, 0, 0, 1] hpxvalid (by decide)
    (by unfold qoiCacheInit; simp) (by omega)
    (fun _ => rfl)
  rw [Nat.zero_add, hpxlen, List.replicate_zero, List.nil_append] at hsim
  refine ⟨_, hwrite, ?_⟩
  rw [show ([113, 111, 105, 102] ++ write32be img.width ++ write32be img.height ++
        [img.channels, 1] ++
        qoi_encode_loop (qoiBytesToPixels img.channels img.pixels) ⟨0, 0, 0, 255⟩
          qoiCacheInit 0 ++
        [0, 0, 0, 0, 0, 0, 0, 1]) =
      ([113, 111, 105, 102] ++ write32be img.width ++ write32be img.height ++
        [img.channels, 1] ++
        (qoi_encode_loop (qoiBytesToPixels img.channels img.pixels) ⟨0, 0, 0, 255⟩
          qoiCacheInit 0 ++
        [0, 0, 0, 0, 0, 0, 0, 1])) from by rw [List.append_assoc]]
  rw [qoi_read_header img.width img.height img.channels 1 _ max_pixels hw hh hwi hhi hch
        hceil]
  rw [hsim]
  dsimp only []
  rw [hrt]

/-- Witness for `qoi_round_trip` at a concrete 2×1 RGB image. -/
theorem qoi_round_trip_witness :
    ∃ bytes, qoi_write ⟨2, 1, 3, [10, 20, 30, 10, 20, 30]⟩ = some bytes ∧
      qoi_read bytes 0 = some ⟨2, 1, 3, [10, 20, 30, 10, 20, 30]⟩ :=
  qoi_round_trip ⟨2, 1, 3, [10, 20, 30, 10, 20, 30]⟩ 0 (by decide) (by decide)
    (by decide) (by decide) (Or.inl rfl) (by decide) (by decide) (Or.inl rfl)
    (by decide)

/-! ## Claim C7: run splitting -/

theorem qoi_encode_loop_run_flush62 (px : Px) (cache : List Px) :
    ∀ (j : Nat) (run : Nat) (rest : List Px), run + j = 62 → 0 < j →
      qoi_encode_loop (List.replicate j px ++ rest) px cache run =
        253 :: qoi_encode_loop rest px cache 0 := by
  intro j
  induction j with
  | zero =>
    intro run rest _ h0
    exact absurd h0 (by omega)
  | succ k ih =>
    intro run rest hsum _
    rw [List.replicate_succ, List.cons_append, qoi_encode_loop, if_pos rfl]
    dsimp only []
    by_cases hk : k = 0
    · subst hk
      rw [if_pos (Or.inl (by omega))]
      have h253 : 192 + (run + 1 - 1) = 253 := by omega
      rw [h253]
      simp
    · rw [if_neg (by
        refine not_or.mpr ⟨by omega, ?_⟩
        obtain ⟨m, rfl⟩ : ∃ m, k = m + 1 := ⟨k - 1, by omega⟩
        simp [List.replicate_succ])]
      exact ih (run + 1) rest (by omega) (by omega)

theorem qoi_encode_loop_run_end (px : Px) (cache : List Px) :
    ∀ (j : Nat) (run : Nat), 0 < j → run + j ≤ 62 →
      qoi_encode_loop (List.replicate j px) px cache run = [192 + (run + j - 1)] := by
  intro j
  induction j with
  | zero =>
    intro run h0 _
    exact absurd h0 (by omega)
  | succ k ih =>
    intro run _ hle
    rw [List.replicate_succ, qoi_encode_loop, if_pos rfl]
    dsimp only []
    by_cases hk : k = 0
    · subst hk
      rw [if_pos (Or.inr (by simp))]
      rw [show List.replicate 0 px = ([] : List Px) from rfl, qoi_encode_loop]
    · rw [if_neg (by
        refine not_or.mpr ⟨by omega, ?_⟩
        obtain ⟨m, rfl⟩ : ∃ m, k = m + 1 := ⟨k - 1, by omega⟩
        simp [List.replicate_succ])]
      rw [ih (run + 1) (by omega) (by omega)]
      congr 1
      omega

theorem qoi_encode_loop_run_absorb (px : Px) (cache : List Px) :
    ∀ (j : Nat) (run : Nat) (p : Px) (rest : List Px), run + j ≤ 61 →
      qoi_encode_loop (List.replicate j px ++ (p :: rest)) px cache run =
        qoi_encode_loop (p :: rest) px cache (run + j) := by
  intro j
  induction j with
  | zero =>
    intro run p rest _
    simp
  | succ k ih =>
    intro run p rest hle
    rw [List.replicate_succ, List.cons_append, qoi_encode_loop, if_pos rfl]
    dsimp only []
    rw [if_neg (by
      refine not_or.mpr ⟨by omega, ?_⟩
      simp [List.append_eq_nil])]
    rw [ih (run + 1) p rest (by omega)]
    congr 1
    omega

/-- **C7, counterexample**: an image whose first 70 pixels are identical —
all 70 pixels equal `(1,0,0,255)` — but whose QOI encoding contains no RUN
operation with count 8 at all (a count-8 RUN op is exactly the byte
`0xc0 | 7 = 199`, and byte 199 does not occur in the output): the encoder
emits a DIFF op for the first pixel (which differs from the initial previous
pixel `(0,0,0,255)`) and splits the remaining 69-pixel run as RUN 62
(byte 253) plus RUN 7 (byte 198), not 62 and 8. -/
theorem qoi_write_run70_counterexample :
    qoi_write ⟨70, 1, 4, (List.replicate 70 [1, 0, 0, 255]).flatten⟩ =
      some [113, 111, 105, 102, 0, 0, 0, 70, 0, 0, 0, 1, 4, 1, 122, 253, 198,
            0, 0, 0, 0, 0, 0, 0, 1] ∧
    (List.count 199 [113, 111, 105, 102, 0, 0, 0, 70, 0, 0, 0, 1, 4, 1, 122, 253, 198,
            0, 0, 0, 0, 0, 0, 0, 1]) = 0 ∧
    qoiBytesToPixels 4 (List.replicate 70 [1, 0, 0, 255]).flatten =
      List.replicate 70 ⟨1, 0, 0, 255⟩ := by
  refine ⟨?_, by decide, by decide⟩
  rw [qoi_write_unfold ⟨70, 1, 4, (List.replicate 70 [1, 0, 0, 255]).flatten⟩
        (by decide) (by decide) (by decide) (by decide) (Or.inr rfl) (by decide)]
  decide

/-- **C7, amended**: run splitting.  For every image (satisfying the encoder's
size preconditions) whose first 70 pixels all equal the encoder's initial
previous pixel `(0,0,0,255)` — for 3-channel input, bytes `(0,0,0)` — and
which either ends there or continues with a differing 71st pixel, the encoder
emits that 70-pixel run as exactly two RUN operations with counts 62
(byte `0xfd` = 253) and 8 (byte `0xc7` = 199), not one. -/
theorem qoi_write_run_split (img : Image) (rest : List Px)
    (hw : 0 < img.width) (hh : 0 < img.height)
    (hwi : img.width ≤ 2147483647) (hhi : img.height ≤ 2147483647)
    (hch : img.channels = 3 ∨ img.channels = 4)
    (hsize : img.width * img.height * (img.channels + 1) + 22 ≤ SIZE_MAX)
    (hpx : qoiBytesToPixels img.channels img.pixels =
      List.replicate 70 ⟨0, 0, 0, 255⟩ ++ rest)
    (hrest : rest = [] ∨ ∃ p rest2, rest = p :: rest2 ∧ p ≠ (⟨0, 0, 0, 255⟩ : Px)) :
    ∃ t, qoi_write img = some
      ([113, 111, 105, 102] ++ write32be img.width ++ write32be img.height ++
        [img.channels, 1] ++ (253 :: 199 :: t)) := by
  rw [qoi_write_unfold img hw hh hwi hhi hch hsize, hpx]
  have h70 : List.replicate 70 (⟨0, 0, 0, 255⟩ : Px) ++ rest =
      List.replicate 62 ⟨0, 0, 0, 255⟩ ++ (List.replicate 8 ⟨0, 0, 0, 255⟩ ++ rest) := by
    rw [← List.append_assoc, ← List.replicate_add]
  rw [h70, qoi_encode_loop_run_flush62 _ _ 62 0 _ (by omega) (by omega)]
  rcases hrest with rfl | ⟨p, rest2, rfl, hp⟩
  · rw [List.append_nil, qoi_encode_loop_run_end _ _ 8 0 (by omega) (by omega)]
    refine ⟨[0, 0, 0, 0, 0, 0, 0, 1], ?_⟩
    simp [List.append_assoc]
  · rw [qoi_encode_loop_run_absorb _ _ 8 0 p rest2 (by omega)]
    rw [qoi_encode_loop, if_neg hp]
    dsimp only []
    rw [if_pos (by omega : 0 < 0 + 8)]
    refine ⟨(qoi_encode_px p ⟨0, 0, 0, 255⟩ qoiCacheInit).1 ++
      (qoi_encode_loop rest2 p (qoi_encode_px p ⟨0, 0, 0, 255⟩ qoiCacheInit).2 0 ++
       [0, 0, 0, 0, 0, 0, 0, 1]), ?_⟩
    simp [List.append_assoc]

/-- Witness for `qoi_write_run_split`: a 70×1 3-channel image of all-zero
bytes (70 pixels `(0,0,0)` = `(0,0,0,255)` after alpha filling). -/
theorem qoi_write_run_split_witness :
    ∃ t, qoi_write ⟨70, 1, 3, List.replicate 210 0⟩ = some
      ([113, 111, 105, 102] ++ write32be 70 ++ write32be 1 ++ [3, 1] ++
        (253 :: 199 :: t)) :=
  qoi_write_run_split ⟨70, 1, 3, List.replicate 210 0⟩ [] (by decide) (by decide)
    (by decide) (by decide) (Or.inl rfl) (by decide) (by decide) (Or.inl rfl)

/-! ## Claim C8: index hit -/

theorem list_getD_set_self (l : List Px) (i : Nat) (a : Px) (h : i < l.length) :
    (l.set i a).getD i ⟨0, 0, 0, 0⟩ = a := by
  rw [List.getD_eq_getElem?_getD, List.getElem?_set_self']
  simp [List.getElem?_eq_getElem, h]

theorem list_getD_set_ne (l : List Px) (i j : Nat) (a : Px) (h : i ≠ j) :
    (l.set j a).getD i ⟨0, 0, 0, 0⟩ = l.getD i ⟨0, 0, 0, 0⟩ := by
  rw [List.getD_eq_getElem?_getD, List.getD_eq_getElem?_getD,
      List.getElem?_set_ne (fun hh => h hh.symm)]

/-- After `qoi_encode_px` handles `px`, the cache slot at `px`'s hash holds
`px` (either it already did — INDEX — or the encoder wrote it). -/
theorem qoi_encode_px_cache_hit (px px_prev : Px) (cache : List Px)
    (hlen : cache.length = 64) :
    qoiCacheGet (qoi_encode_px px px_prev cache).2 (qoi_hashPx px) = px := by
  by_cases hhit : qoiCacheGet cache (qoi_hashPx px) = px
  · rw [qoi_encode_px_index px px_prev cache hhit]
    exact hhit
  · have hset : ∀ c : List Px, c = cache.set (qoi_hashPx px) px →
        qoiCacheGet c (qoi_hashPx px) = px := by
      intro c hc
      rw [hc]
      exact list_getD_set_self cache (qoi_hashPx px) px (hlen ▸ qoi_hashPx_lt px)
    unfold qoi_encode_px
    rw [if_neg hhit]
    dsimp only []
    split
    · split
      · exact hset _ rfl
      · split
        · exact hset _ rfl
        · exact hset _ rfl
    · exact hset _ rfl

/-- `qoi_encode_px` only touches the cache slot of its own pixel's hash. -/
theorem qoi_encode_px_cache_other (px px_prev : Px) (cache : List Px) (i : Nat)
    (hne : i ≠ qoi_hashPx px) :
    qoiCacheGet (qoi_encode_px px px_prev cache).2 i = qoiCacheGet cache i := by
  have hset : ∀ c : List Px, c = cache.set (qoi_hashPx px) px →
      qoiCacheGet c i = qoiCacheGet cache i := by
    intro c hc
    rw [hc]
    exact list_getD_set_ne cache i (qoi_hashPx px) px hne
  by_cases hhit : qoiCacheGet cache (qoi_hashPx px) = px
  · rw [qoi_encode_px_index px px_prev cache hhit]
  · unfold qoi_encode_px
    rw [if_neg hhit]
    dsimp only []
    split
    · split
      · exact hset _ rfl
      · split
        · exact hset _ rfl
        · exact hset _ rfl
    · exact hset _ rfl

/-- **C8, amended**: index hit.  Whenever the encoder, in any state, meets the
pixel pattern `p, q, p` where `p` differs from the pixel before it, `q`
differs from `p` (not immediately repeating), and `q`'s hash slot differs from
`p`'s, then the first `p` and `q` are emitted through the hash-indexed cache
path and the second occurrence of `p` is emitted as exactly the 1-byte INDEX
operation `qoi_hash p`. -/
theorem qoi_encode_index_hit (p q prev : Px) (cache : List Px) (run : Nat)
    (rest : List Px) (hlen : cache.length = 64) (hp : p ≠ prev) (hq : q ≠ p)
    (hhash : qoi_hashPx q ≠ qoi_hashPx p) :
    qoi_encode_loop (p :: q :: p :: rest) prev cache run =
      (if 0 < run then [192 + (run - 1)] else []) ++
      ((qoi_encode_px p prev cache).1 ++
       ((qoi_encode_px q p (qoi_encode_px p prev cache).2).1 ++
        ([qoi_hashPx p] ++
         qoi_encode_loop rest p
           (qoi_encode_px q p (qoi_encode_px p prev cache).2).2 0))) := by
  have hc1 : qoiCacheGet (qoi_encode_px p prev cache).2 (qoi_hashPx p) = p :=
    qoi_encode_px_cache_hit p prev cache hlen
  have hc2 : qoiCacheGet (qoi_encode_px q p (qoi_encode_px p prev cache).2).2
      (qoi_hashPx p) = p := by
    rw [qoi_encode_px_cache_other q p _ (qoi_hashPx p) (fun hh => hhash hh.symm)]
    exact hc1
  rw [qoi_encode_loop, if_neg hp]
  dsimp only []
  congr 1
  rw [qoi_encode_loop, if_neg hq]
  dsimp only []
  rw [if_neg (by omega)]
  rw [List.nil_append]
  congr 1
  rw [qoi_encode_loop, if_neg (fun hh => hq hh.symm)]
  dsimp only []
  rw [if_neg (by omega)]
  rw [List.nil_append]
  rw [qoi_encode_px_index p q _ hc2]

/-- Witness for `qoi_encode_index_hit` at a concrete pattern
`(1,2,3,255), (9,9,9,255), (1,2,3,255)` from the initial encoder state. -/
theorem qoi_encode_index_hit_witness :
    qoi_encode_loop [⟨1, 2, 3, 255⟩, ⟨9, 9, 9, 255⟩, ⟨1, 2, 3, 255⟩]
        ⟨0, 0, 0, 255⟩ qoiCacheInit 0 =
      (if 0 < (0 : Nat) then [192 + (0 - 1)] else []) ++
      ((qoi_encode_px ⟨1, 2, 3, 255⟩ ⟨0, 0, 0, 255⟩ qoiCacheInit).1 ++
       ((qoi_encode_px ⟨9, 9, 9, 255⟩ ⟨1, 2, 3, 255⟩
           (qoi_encode_px ⟨1, 2, 3, 255⟩ ⟨0, 0, 0, 255⟩ qoiCacheInit).2).1 ++
        ([qoi_hashPx ⟨1, 2, 3, 255⟩] ++
         qoi_encode_loop []
           ⟨1, 2, 3, 255⟩
           (qoi_encode_px ⟨9, 9, 9, 255⟩ ⟨1, 2, 3, 255⟩
             (qoi_encode_px ⟨1, 2, 3, 255⟩ ⟨0, 0, 0, 255⟩ qoiCacheInit).2).2 0))) :=
  qoi_encode_index_hit ⟨1, 2, 3, 255⟩ ⟨9, 9, 9, 255⟩ ⟨0, 0, 0, 255⟩ qoiCacheInit 0 []
    (by decide) (by decide) (by decide) (by decide)

/-- **C8, counterexample**: an image containing two identical non-adjacent
pixels `(0,0,0,255)` separated by the single different pixel `(1,0,0,255)`,
whose encoding contains no INDEX op for that pixel at all: its hash is 53, an
INDEX op for it is exactly the byte 53, and byte 53 never occurs in the
output.  The first occurrence equals the initial previous pixel and is
encoded as a RUN, so it never enters the hash cache, and the second
occurrence is emitted as a DIFF op (byte 90), not an INDEX. -/
theorem qoi_write_index_miss_counterexample :
    qoi_write ⟨3, 1, 4, [0, 0, 0, 255, 1, 0, 0, 255, 0, 0, 0, 255]⟩ =
      some [113, 111, 105, 102, 0, 0, 0, 3, 0, 0, 0, 1, 4, 1, 192, 122, 90,
            0, 0, 0, 0, 0, 0, 0, 1] ∧
    List.count 53 [113, 111, 105, 102, 0, 0, 0, 3, 0, 0, 0, 1, 4, 1, 192, 122, 90,
            0, 0, 0, 0, 0, 0, 0, 1] = 0 ∧
    qoi_hashPx ⟨0, 0, 0, 255⟩ = 53 ∧
    qoiBytesToPixels 4 [0, 0, 0, 255, 1, 0, 0, 255, 0, 0, 0, 255] =
      [⟨0, 0, 0, 255⟩, ⟨1, 0, 0, 255⟩, ⟨0, 0, 0, 255⟩] := by
  refine ⟨?_, by decide, by decide, by decide⟩
  rw [qoi_write_unfold ⟨3, 1, 4, [0, 0, 0, 255, 1, 0, 0, 255, 0, 0, 0, 255]⟩
        (by decide) (by decide) (by decide) (by decide) (Or.inr rfl) (by decide)]
  decide

/-! ## BMP codec -/

/-- Little-endian 16-bit read of a packed struct field from two file bytes. -/
def read16le (b0 b1 : Nat) : Nat :=
  b0 % 256 + b1 % 256 * 256

/-- Little-endian 32-bit read of a packed struct field from four file bytes. -/
def read32le (b0 b1 b2 b3 : Nat) : Nat :=
  b0 % 256 + b1 % 256 * 256 + b2 % 256 * 65536 + b3 % 256 * 16777216

/-- The `int32_t` value denoted by an unsigned 32-bit pattern
(two's complement). -/
def int32_of (v : Nat) : Int :=
  if v % 4294967296 < 2147483648 then (v % 4294967296 : Nat)
  else (v % 4294967296 : Nat) - 4294967296

/-- Little-endian 16-bit write. -/
def write16le (v : Nat) : List Nat :=
  [v % 256, v / 256 % 256]

/-- Little-endian 32-bit write. -/
def write32le (v : Nat) : List Nat :=
  [v % 256, v / 256 % 256, v / 65536 % 256, v / 16777216 % 256]

/-- `bmp_read`'s per-row conversion for 24-bit rows: `dst[x*3+0..2] =
row[x*3+2], row[x*3+1], row[x*3+0]` (BGR to RGB), `width` pixels, the padding
tail of the row buffer unread. -/
def bmp_row_bgr_to_rgb3 : Nat → List Nat → List Nat
  | 0, _ => []
  | w + 1, b :: g :: r :: rest => r :: g :: b :: bmp_row_bgr_to_rgb3 w rest
  | _ + 1, _ => []

/-- `bmp_read`'s per-row conversion for 32-bit rows: BGRA to RGBA. -/
def bmp_row_bgr_to_rgb4 : Nat → List Nat → List Nat
  | 0, _ => []
  | w + 1, b :: g :: r :: a :: rest => r :: g :: b :: a :: bmp_row_bgr_to_rgb4 w rest
  | _ + 1, _ => []

/-- `bmp_write`'s per-row conversion from a 3-channel source row:
`row[x*3+0..2] = src[x*3+2], src[x*3+1], src[x*3+0]` (RGB to BGR). -/
def bmp_row_rgb_to_bgr3 : Nat → List Nat → List Nat
  | 0, _ => []
  | w + 1, r :: g :: b :: rest => b :: g :: r :: bmp_row_rgb_to_bgr3 w rest
  | _ + 1, _ => []

/-- `bmp_write`'s per-row conversion from a 4-channel source row: RGBA to BGR,
alpha dropped. -/
def bmp_row_rgb_to_bgr4 : Nat → List Nat → List Nat
  | 0, _ => []
  | w + 1, r :: g :: b :: _a :: rest => b :: g :: r :: bmp_row_rgb_to_bgr4 w rest
  | _ + 1, _ => []

/-- Splitting a pixel buffer into `h` rows of `rowbytes` bytes (the row
indexing `pixels + y * rowbytes` of both BMP loops). -/
def chunkRows (rowbytes : Nat) : Nat → List Nat → List (List Nat)
  | 0, _ => []
  | h + 1, l => l.take rowbytes :: chunkRows rowbytes h (l.drop rowbytes)

/-- The row-reading loop of `bmp_read`: reads `h` rows of `bmp_rowbytes`
file bytes each (failing like `READ_FILE` on a short read) and converts each
from BGR(A) to RGB(A).  Row `y` of the file is placed at destination row
`top_down ? y : height-1-y`; reading returns the converted rows in file
order, and `bmp_read` reverses them for bottom-up files. -/
def bmp_read_rows (channels bmp_rowbytes width : Nat) :
    Nat → List Nat → Option (List (List Nat))
  | 0, _ => some []
  | h + 1, data =>
    if data.length < bmp_rowbytes then none
    else
      (bmp_read_rows channels bmp_rowbytes width h (data.drop bmp_rowbytes)).map
        (fun rows =>
          (if channels = 4 then bmp_row_bgr_to_rgb4 width (data.take bmp_rowbytes)
           else bmp_row_bgr_to_rgb3 width (data.take bmp_rowbytes)) :: rows)

/-- Dropping the alpha byte of every 4-byte pixel (the effect of
`bmp_write`'s 24-bit output on a 4-channel source). -/
def dropAlpha : List Nat → List Nat
  | r :: g :: b :: _a :: rest => r :: g :: b :: dropAlpha rest
  | l => l

/-- `bmp_write`: validates dimensions, computes the padded row size
`(width*3 + 3) & ~3` and the image size with checked arithmetic, rejects
files whose byte size leaves the `uint32_t` range, then emits the 14-byte
file header, the 40-byte info header and the pixel rows bottom-up (source row
`height-1` first), each RGB(A)→BGR converted with a zero `calloc` padding
tail.  Returns the byte stream written to the output file. -/
def bmp_write (img : Image) : Option (List Nat) :=
  if ¬ (image_validate_dims img.width img.height img.channels) then none else
  match checked_mul_size img.width 3 with
  | none => none
  | some raw_rowbytes =>
  match checked_add_size raw_rowbytes 3 with
  | none => none
  | some tmp_rowbytes =>
  let bmp_rowbytes := 4 * (tmp_rowbytes / 4)
  if bmp_rowbytes = 0 then none else
  match checked_mul_size bmp_rowbytes img.height with
  | none => none
  | some image_size =>
  if image_size > 4294967295 - 54 then none else
  match checked_mul_size img.width img.channels with
  | none => none
  | some src_rowbytes =>
    some (write16le 19778 ++ write32le (54 + image_size) ++ write16le 0 ++
      write16le 0 ++ write32le 54 ++
      write32le 40 ++ write32le img.width ++ write32le img.height ++
      write16le 1 ++ write16le 24 ++ write32le 0 ++ write32le image_size ++
      write32le 0 ++ write32le 0 ++ write32le 0 ++ write32le 0 ++
      ((chunkRows src_rowbytes img.height img.pixels).reverse.map
        (fun srcRow =>
          (if img.channels = 4 then bmp_row_rgb_to_bgr4 img.width srcRow
           else bmp_row_rgb_to_bgr3 img.width srcRow) ++
          List.replicate (bmp_rowbytes - 3 * img.width) 0)).flatten)

/-- `bmp_read`: reads the 14-byte file header and 40-byte info header
(little-endian packed structs), rejects a bad magic, nonzero compression,
bit depth outside {24,32}, non-positive or over-`INT_MAX` width, zero or
`INT32_MIN` height; then validates dimensions and the pixel ceiling,
allocates via the checked path, seeks to the header-declared pixel offset and
reads `height` padded rows, converting BGR(A)→RGB(A) and placing file row `y`
at destination row `y` (top-down, negative stored height) or `height-1-y`
(bottom-up).  Returns the decoded image. -/
def bmp_read (file : List Nat) (max_pixels : Nat) : Option Image :=
  match file with
  | t0 :: t1 :: _z0 :: _z1 :: _z2 :: _z3 :: _r0 :: _r1 :: _r2 :: _r3 ::
    o0 :: o1 :: o2 :: o3 ::
    _s0 :: _s1 :: _s2 :: _s3 :: w0 :: w1 :: w2 :: w3 :: h0 :: h1 :: h2 :: h3 ::
    _p0 :: _p1 :: bc0 :: bc1 :: c0 :: c1 :: c2 :: c3 ::
    _i0 :: _i1 :: _i2 :: _i3 :: _x0 :: _x1 :: _x2 :: _x3 ::
    _y0 :: _y1 :: _y2 :: _y3 :: _u0 :: _u1 :: _u2 :: _u3 ::
    _v0 :: _v1 :: _v2 :: _v3 :: _rest =>
    if read16le t0 t1 ≠ 19778 then none else
    let bit_count := read16le bc0 bc1
    if read32le c0 c1 c2 c3 ≠ 0 ∨ (bit_count ≠ 24 ∧ bit_count ≠ 32) then none else
    let widthI := int32_of (read32le w0 w1 w2 w3)
    let heightI := int32_of (read32le h0 h1 h2 h3)
    if widthI ≤ 0 ∨ widthI > 2147483647 ∨ heightI = 0 ∨ heightI = -2147483648 then
      none
    else
    let top_down := heightI < 0
    let width := widthI.toNat
    let height := (if top_down then -heightI else heightI).toNat
    let channels := if bit_count = 32 then 4 else 3
    if ¬ (image_validate_dims width height channels) then none else
    if ¬ (image_check_max_pixels width height max_pixels) then none else
    match checked_mul_size width channels with
    | none => none
    | some rowbytes =>
    match image_alloc_pixels width height channels rowbytes max_pixels with
    | none => none
    | some _ =>
    let bmp_channels := bit_count / 8
    match checked_mul_size width bmp_channels with
    | none => none
    | some raw_rowbytes =>
    match checked_add_size raw_rowbytes 3 with
    | none => none
    | some tmp_rowbytes =>
    let bmp_rowbytes := 4 * (tmp_rowbytes / 4)
    match bmp_read_rows channels bmp_rowbytes width height
        (file.drop (read32le o0 o1 o2 o3)) with
    | none => none
    | some rows =>
      some ⟨width, height, channels, (if top_down then rows else rows.reverse).flatten⟩
  | _ => none

/-! ## BMP row and chunk lemmas -/

theorem bmp_row_rgb_to_bgr3_length (w : Nat) :
    ∀ src : List Nat, 3 * w ≤ src.length →
      (bmp_row_rgb_to_bgr3 w src).length = 3 * w := by
  induction w with
  | zero =>
    intro src _
    rfl
  | succ k ih =>
    intro src hlen
    match src, hlen with
    | r :: g :: b :: rest, hlen =>
      rw [bmp_row_rgb_to_bgr3]
      simp only [List.length_cons]
      rw [ih rest (by simp at hlen; omega)]
      omega

theorem bmp_row_rgb_to_bgr4_length (w : Nat) :
    ∀ src : List Nat, 4 * w ≤ src.length →
      (bmp_row_rgb_to_bgr4 w src).length = 3 * w := by
  induction w with
  | zero =>
    intro src _
    rfl
  | succ k ih =>
    intro src hlen
    match src, hlen with
    | r :: g :: b :: a :: rest, hlen =>
      rw [bmp_row_rgb_to_bgr4]
      simp only [List.length_cons]
      rw [ih rest (by simp at hlen; omega)]
      omega

theorem bmp_row_roundtrip3 (w : Nat) :
    ∀ (src pad : List Nat), src.length = 3 * w →
      bmp_row_bgr_to_rgb3 w (bmp_row_rgb_to_bgr3 w src ++ pad) = src := by
  induction w with
  | zero =>
    intro src pad hlen
    have h0 : src.length = 0 := by omega
    obtain rfl := List.length_eq_zero.mp h0
    rfl
  | succ k ih =>
    intro src pad hlen
    match src, hlen with
    | r :: g :: b :: rest, hlen =>
      rw [bmp_row_rgb_to_bgr3, List.cons_append, List.cons_append, List.cons_append,
          bmp_row_bgr_to_rgb3, ih rest pad (by simp at hlen; omega)]

theorem bmp_row_roundtrip4 (w : Nat) :
    ∀ (src pad : List Nat), src.length = 4 * w →
      bmp_row_bgr_to_rgb3 w (bmp_row_rgb_to_bgr4 w src ++ pad) = dropAlpha src := by
  induction w with
  | zero =>
    intro src pad hlen
    have h0 : src.length = 0 := by omega
    obtain rfl := List.length_eq_zero.mp h0
    rfl
  | succ k ih =>
    intro src pad hlen
    match src, hlen with
    | r :: g :: b :: a :: rest, hlen =>
      rw [bmp_row_rgb_to_bgr4, List.cons_append, List.cons_append, List.cons_append,
          bmp_row_bgr_to_rgb3, ih rest pad (by simp at hlen; omega), dropAlpha]

theorem chunkRows_mem_length (n : Nat) :
    ∀ (h : Nat) (l : List Nat), l.length = h * n →
      ∀ r ∈ chunkRows n h l, r.length = n := by
  intro h
  induction h with
  | zero =>
    intro l _ r hr
    simp [chunkRows] at hr
  | succ k ih =>
    intro l hlen r hr
    have hlen2 : l.length = k * n + n := by rw [hlen]; ring
    rw [chunkRows] at hr
    rcases List.mem_cons.mp hr with hr | hr
    · subst hr
      rw [List.length_take]
      omega
    · exact ih (l.drop n) (by rw [List.length_drop]; omega) r hr

theorem chunkRows_flatten (n : Nat) :
    ∀ (h : Nat) (l : List Nat), l.length = h * n →
      (chunkRows n h l).flatten = l := by
  intro h
  induction h with
  | zero =>
    intro l hlen
    have h0 : l.length = 0 := by omega
    obtain rfl := List.length_eq_zero.mp h0
    rfl
  | succ k ih =>
    intro l hlen
    have hlen2 : l.length = k * n + n := by rw [hlen]; ring
    rw [chunkRows, List.flatten_cons, ih (l.drop n) (by rw [List.length_drop]; omega),
        List.take_append_drop]

theorem dropAlpha_append (k : Nat) :
    ∀ (l1 l2 : List Nat), l1.length = 4 * k →
      dropAlpha (l1 ++ l2) = dropAlpha l1 ++ dropAlpha l2 := by
  induction k with
  | zero =>
    intro l1 l2 hlen
    have h0 : l1.length = 0 := by omega
    obtain rfl := List.length_eq_zero.mp h0
    rfl
  | succ j ih =>
    intro l1 l2 hlen
    match l1, hlen with
    | r :: g :: b :: a :: rest, hlen =>
      rw [List.cons_append, List.cons_append, List.cons_append, List.cons_append,
          dropAlpha, dropAlpha, ih rest l2 (by simp at hlen; omega), List.cons_append,
          List.cons_append, List.cons_append]

theorem bmp_read_rows_flatten (channels bmp_rowbytes width : Nat) :
    ∀ rows : List (List Nat), (∀ r ∈ rows, r.length = bmp_rowbytes) →
      bmp_read_rows channels bmp_rowbytes width rows.length rows.flatten =
        some (rows.map (fun r =>
          if channels = 4 then bmp_row_bgr_to_rgb4 width r
          else bmp_row_bgr_to_rgb3 width r)) := by
  intro rows
  induction rows with
  | nil =>
    intro _
    rfl
  | cons r rs ih =>
    intro hlen
    have hr : r.length = bmp_rowbytes := hlen r (by simp)
    rw [List.length_cons, List.flatten_cons, bmp_read_rows]
    rw [if_neg (by simp [List.length_append]; omega)]
    rw [show bmp_rowbytes = r.length from hr.symm, List.take_left, List.drop_left,
        hr, ih (fun x hx => hlen x (by simp [hx]))]
    rfl

/-! ## Claim C6: BMP header rejection -/

/-- **C6**: `bmp_read` rejects — returns no image — every input whose
file-header magic is not `"BM"` (`0x4D42` little-endian), whose compression
field is nonzero, whose bit depth is neither 24 nor 32, whose `int32` width is
`≤ 0`, or whose `int32` height is `0` or `INT32_MIN`. -/
theorem bmp_read_rejects_bad_headers
    (t0 t1 z0 z1 z2 z3 r0 r1 r2 r3 o0 o1 o2 o3
     s0 s1 s2 s3 w0 w1 w2 w3 h0 h1 h2 h3 p0 p1 bc0 bc1 c0 c1 c2 c3
     i0 i1 i2 i3 x0 x1 x2 x3 y0 y1 y2 y3 u0 u1 u2 u3 v0 v1 v2 v3 : Nat)
    (rest : List Nat) (max_pixels : Nat)
    (hbad : read16le t0 t1 ≠ 19778 ∨ read32le c0 c1 c2 c3 ≠ 0 ∨
      (read16le bc0 bc1 ≠ 24 ∧ read16le bc0 bc1 ≠ 32) ∨
      int32_of (read32le w0 w1 w2 w3) ≤ 0 ∨
      int32_of (read32le h0 h1 h2 h3) = 0 ∨
      int32_of (read32le h0 h1 h2 h3) = -2147483648) :
    bmp_read (t0 :: t1 :: z0 :: z1 :: z2 :: z3 :: r0 :: r1 :: r2 :: r3 ::
      o0 :: o1 :: o2 :: o3 :: s0 :: s1 :: s2 :: s3 :: w0 :: w1 :: w2 :: w3 ::
      h0 :: h1 :: h2 :: h3 :: p0 :: p1 :: bc0 :: bc1 :: c0 :: c1 :: c2 :: c3 ::
      i0 :: i1 :: i2 :: i3 :: x0 :: x1 :: x2 :: x3 :: y0 :: y1 :: y2 :: y3 ::
      u0 :: u1 :: u2 :: u3 :: v0 :: v1 :: v2 :: v3 :: rest) max_pixels = none := by
  rw [bmp_read.eq_def]
  dsimp only []
  by_cases h1 : read16le t0 t1 ≠ 19778
  · rw [if_pos h1]
  · rw [if_neg h1]
    by_cases h2 : read32le c0 c1 c2 c3 ≠ 0 ∨
        (read16le bc0 bc1 ≠ 24 ∧ read16le bc0 bc1 ≠ 32)
    · rw [if_pos h2]
    · rw [if_neg h2]
      rw [if_pos ?_]
      rcases hbad with h | h | h | h | h | h
      · exact absurd h h1
      · exact absurd (Or.inl h) h2
      · exact absurd (Or.inr h) h2
      · exact Or.inl h
      · exact Or.inr (Or.inr (Or.inl h))
      · exact Or.inr (Or.inr (Or.inr h))

/-- Witness for `bmp_read_rejects_bad_headers`: a 54-byte header whose bytes
are 1, 2, ..., 54 (magic `0x0201`, not `"BM"`) is rejected. -/
theorem bmp_read_rejects_bad_headers_witness :
    bmp_read [1, 2, 3, 4, 5, 6, 7, 8, 9, 10, 11, 12, 13, 14, 15, 16, 17, 18, 19, 20, 21, 22, 23, 24, 25, 26, 27, 28, 29, 30, 31, 32, 33, 34, 35, 36, 37, 38, 39, 40, 41, 42, 43, 44, 45, 46, 47, 48, 49, 50, 51, 52, 53, 54] 100 = none :=
  bmp_read_rejects_bad_headers 1 2 3 4 5 6 7 8 9 10 11 12 13 14 15 16 17 18 19 20 21 22 23 24 25 26 27 28 29 30 31 32 33 34 35 36 37 38 39 40 41 42 43 44 45 46 47 48 49 50 51 52 53 54 [] 100 (Or.inl (by decide))

/-! ## Claim C5: BMP round trip -/

theorem int32_of_small (v : Nat) (hv : v < 2147483648) : int32_of v = v := by
  unfold int32_of
  rw [Nat.mod_eq_of_lt (by omega), if_pos (by omega)]

theorem read32le_write32le (v : Nat) (hv : v < 4294967296) :
    read32le (v % 256) (v / 256 % 256) (v / 65536 % 256) (v / 16777216 % 256) = v := by
  unfold read32le
  omega

theorem chunkRows_length (n : Nat) :
    ∀ (h : Nat) (l : List Nat), (chunkRows n h l).length = h := by
  intro h
  induction h with
  | zero => intro l; rfl
  | succ k ih =>
    intro l
    rw [chunkRows, List.length_cons, ih]

theorem image_alloc_pixels_eq (width height channels rowbytes mp : Nat)
    (hval : image_validate_dims width height channels = true) (hrb : rowbytes ≠ 0)
    (hchk : image_check_max_pixels width height mp = true)
    (hr : rowbytes ≤ SIZE_MAX) (hhS : height ≤ SIZE_MAX)
    (hmul : rowbytes * height ≤ SIZE_MAX) :
    image_alloc_pixels width height channels rowbytes mp =
      some (rowbytes * height) := by
  unfold image_alloc_pixels
  rw [if_neg (by rw [hval]; simp [hrb]), if_neg (by rw [hchk]; simp),
      checked_mul_size_spec rowbytes height hr hhS, if_pos hmul]

theorem list_drop_54 (x1 x2 x3 x4 x5 x6 x7 x8 x9 x10 x11 x12 x13 x14 x15 x16 x17 x18
    x19 x20 x21 x22 x23 x24 x25 x26 x27 x28 x29 x30 x31 x32 x33 x34 x35 x36 x37 x38
    x39 x40 x41 x42 x43 x44 x45 x46 x47 x48 x49 x50 x51 x52 x53 x54 : Nat)
    (body : List Nat) :
    List.drop 54 (x1 :: x2 :: x3 :: x4 :: x5 :: x6 :: x7 :: x8 :: x9 :: x10 :: x11 ::
      x12 :: x13 :: x14 :: x15 :: x16 :: x17 :: x18 :: x19 :: x20 :: x21 :: x22 ::
      x23 :: x24 :: x25 :: x26 :: x27 :: x28 :: x29 :: x30 :: x31 :: x32 :: x33 ::
      x34 :: x35 :: x36 :: x37 :: x38 :: x39 :: x40 :: x41 :: x42 :: x43 :: x44 ::
      x45 :: x46 :: x47 :: x48 :: x49 :: x50 :: x51 :: x52 :: x53 :: x54 :: body) =
      body := rfl

theorem dropAlpha_chunkRows_flatten (w4 : Nat) :
    ∀ (h : Nat) (l : List Nat), l.length = h * (4 * w4) →
      ((chunkRows (4 * w4) h l).map dropAlpha).flatten = dropAlpha l := by
  intro h
  induction h with
  | zero =>
    intro l hlen
    have h0 : l.length = 0 := by omega
    obtain rfl := List.length_eq_zero.mp h0
    rfl
  | succ k ih =>
    intro l hlen
    have hlen2 : l.length = k * (4 * w4) + 4 * w4 := by rw [hlen]; ring
    rw [chunkRows, List.map_cons, List.flatten_cons,
        ih (l.drop (4 * w4)) (by rw [List.length_drop]; omega),
        ← dropAlpha_append w4 (l.take (4 * w4)) (l.drop (4 * w4))
          (by rw [List.length_take]; omega),
        List.take_append_drop]

/-- Reduction of `bmp_write` when its size checks pass: file header, info
header, then the source rows bottom-up, BGR-converted and zero-padded. -/
theorem bmp_write_unfold (img : Image)
    (hw : 0 < img.width) (hh : 0 < img.height)
    (hwi : img.width ≤ 2147483647) (hhi : img.height ≤ 2147483647)
    (hch : img.channels = 3 ∨ img.channels = 4)
    (hsize : 4 * ((img.width * 3 + 3) / 4) * img.height ≤ 4294967295 - 54) :
    bmp_write img = some (write16le 19778 ++
      write32le (54 + 4 * ((img.width * 3 + 3) / 4) * img.height) ++ write16le 0 ++
      write16le 0 ++ write32le 54 ++ write32le 40 ++ write32le img.width ++
      write32le img.height ++ write16le 1 ++ write16le 24 ++ write32le 0 ++
      write32le (4 * ((img.width * 3 + 3) / 4) * img.height) ++ write32le 0 ++
      write32le 0 ++ write32le 0 ++ write32le 0 ++
      ((chunkRows (img.width * img.channels) img.height img.pixels).reverse.map
        (fun srcRow =>
          (if img.channels = 4 then bmp_row_rgb_to_bgr4 img.width srcRow
           else bmp_row_rgb_to_bgr3 img.width srcRow) ++
          List.replicate (4 * ((img.width * 3 + 3) / 4) - 3 * img.width) 0)).flatten) := by
  have hval : image_validate_dims img.width img.height img.channels = true := by
    unfold image_validate_dims
    rcases hch with hc | hc <;> simp [hc, hw, hh]
  have hw3 : img.width * 3 ≤ SIZE_MAX := by unfold SIZE_MAX; omega
  have hw33 : img.width * 3 + 3 ≤ SIZE_MAX := by unfold SIZE_MAX; omega
  have hRb : 4 * ((img.width * 3 + 3) / 4) ≤ 6442450944 := by omega
  have hRS : 4 * ((img.width * 3 + 3) / 4) ≤ SIZE_MAX := by unfold SIZE_MAX; omega
  have hRh : 4 * ((img.width * 3 + 3) / 4) * img.height ≤ SIZE_MAX :=
    le_trans (Nat.mul_le_mul hRb hhi) (by unfold SIZE_MAX; norm_num)
  have hch4 : img.channels ≤ 4 := by rcases hch with hc | hc <;> omega
  have hwc : img.width * img.channels ≤ SIZE_MAX :=
    le_trans (Nat.mul_le_mul hwi hch4) (by unfold SIZE_MAX; norm_num)
  rw [bmp_write, if_neg (by rw [hval]; simp),
      checked_mul_size_spec img.width 3 (by unfold SIZE_MAX; omega)
        (by unfold SIZE_MAX; norm_num),
      if_pos hw3]
  dsimp only []
  rw [checked_add_size_spec (img.width * 3) 3 hw3 (by unfold SIZE_MAX; norm_num),
      if_pos hw33]
  dsimp only []
  rw [if_neg (by omega)]
  rw [checked_mul_size_spec (4 * ((img.width * 3 + 3) / 4)) img.height hRS
        (by unfold SIZE_MAX; omega),
      if_pos hRh]
  dsimp only []
  rw [if_neg (by omega)]
  rw [checked_mul_size_spec img.width img.channels
        (by unfold SIZE_MAX; omega) (by unfold SIZE_MAX; omega),
      if_pos hwc]

/-- Reduction of `bmp_read` on a well-formed bottom-up 24-bit file: the
header parses, the file-size and image-size fields are ignored, and the
padded rows are read in file order, converted and reversed. -/
theorem bmp_read_explicit (w h fsz isz : Nat) (rows : List (List Nat)) (mp : Nat)
    (hw : 0 < w) (hh : 0 < h) (hwi : w ≤ 2147483647) (hhi : h ≤ 2147483647)
    (hceil : mp = 0 ∨ w * h ≤ mp)
    (hrows : ∀ r ∈ rows, r.length = 4 * ((w * 3 + 3) / 4))
    (hrl : rows.length = h) :
    bmp_read (write16le 19778 ++ write32le fsz ++ write16le 0 ++ write16le 0 ++
      write32le 54 ++ write32le 40 ++ write32le w ++ write32le h ++ write16le 1 ++
      write16le 24 ++ write32le 0 ++ write32le isz ++ write32le 0 ++ write32le 0 ++
      write32le 0 ++ write32le 0 ++ rows.flatten) mp =
      some ⟨w, h, 3, ((rows.map (bmp_row_bgr_to_rgb3 w)).reverse).flatten⟩ := by
  have hwS : w ≤ SIZE_MAX := by unfold SIZE_MAX; omega
  have hhS : h ≤ SIZE_MAX := by unfold SIZE_MAX; omega
  have hwh : w * h ≤ SIZE_MAX :=
    le_trans (Nat.mul_le_mul hwi hhi) (by unfold SIZE_MAX; norm_num)
  have hw3 : w * 3 ≤ SIZE_MAX := by unfold SIZE_MAX; omega
  have hw3h : w * 3 * h ≤ SIZE_MAX := by
    have h1 : w * 3 ≤ 6442450941 := by omega
    exact le_trans (Nat.mul_le_mul h1 hhi) (by unfold SIZE_MAX; norm_num)
  have hval : image_validate_dims w h 3 = true := by
    unfold image_validate_dims
    simp [hw, hh]
  have hchk : image_check_max_pixels w h mp = true := by
    unfold image_check_max_pixels
    rw [checked_mul_size_spec w h hwS hhS, if_pos hwh]
    rcases hceil with hc | hc <;> simp [hc]
  simp only [write16le, write32le, List.cons_append, List.nil_append]
  norm_num
  rw [bmp_read.eq_def]
  dsimp only []
  rw [if_neg (by decide)]
  rw [if_neg (by decide)]
  rw [read32le_write32le w (by omega), read32le_write32le h (by omega),
      int32_of_small w (by omega), int32_of_small h (by omega)]
  rw [if_neg (by omega)]
  rw [if_neg (by omega : ¬ ((h : Int) < 0)), Int.toNat_natCast, Int.toNat_natCast]
  rw [show ((if read16le 24 0 = 32 then 4 else 3) : Nat) = 3 from by decide]
  rw [if_neg (by rw [hval]; simp), if_neg (by rw [hchk]; simp)]
  rw [checked_mul_size_spec w 3 hwS (by unfold SIZE_MAX; norm_num), if_pos hw3]
  dsimp only []
  rw [image_alloc_pixels_eq w h 3 (w * 3) mp hval (by omega) hchk hw3 hhS hw3h]
  dsimp only []
  rw [show read16le 24 0 / 8 = 3 from by decide]
  rw [checked_mul_size_spec w 3 hwS (by unfold SIZE_MAX; norm_num), if_pos hw3]
  dsimp only []
  rw [checked_add_size_spec (w * 3) 3 hw3 (by unfold SIZE_MAX; norm_num),
      if_pos (by unfold SIZE_MAX; omega)]
  dsimp only []
  rw [show read32le 54 0 0 0 = 54 from by decide]
  rw [list_drop_54]
  rw [← hrl, bmp_read_rows_flatten 3 (4 * ((w * 3 + 3) / 4)) w rows hrows]
  dsimp only []
  rw [List.map_congr_left (fun r _ => by rw [if_neg (by norm_num : ¬ (3 : Nat) = 4)])]
  rw [if_neg (by omega : ¬ ((rows.length : Int) < 0))]

/-- Pointwise-equal functions give equal maps (with both functions explicit,
so the target function of a rewrite can be given positionally). -/
theorem list_map_congr {α β : Type} (f g : α → β) (l : List α)
    (h : ∀ a ∈ l, f a = g a) : l.map f = l.map g := by
  induction l with
  | nil => rfl
  | cons x xs ih =>
    simp only [List.map_cons]
    rw [h x (List.mem_cons_self x xs),
        ih (fun a ha => h a (List.mem_cons_of_mem x ha))]

/-- **C5, amended**: BMP round trip.  For every `Image` with positive
dimensions in the C `int` range, within the pixel ceiling (or ceiling 0),
whose padded image size `bmp_rowbytes * height` fits the BMP `uint32_t`
file-size field (the amendment the counterexample forces), encoding succeeds
and decoding the produced bytes succeeds; for 3-channel input the decoded
image reproduces every pixel byte exactly, and for 4-channel input the
decoded image has channels 3 with the R,G,B values of every pixel preserved
and the alpha bytes deterministically dropped. -/
theorem bmp_round_trip (img : Image) (max_pixels : Nat)
    (hw : 0 < img.width) (hh : 0 < img.height)
    (hwi : img.width ≤ 2147483647) (hhi : img.height ≤ 2147483647)
    (hch : img.channels = 3 ∨ img.channels = 4)
    (hlen : img.pixels.length = img.width * img.height * img.channels)
    (hceil : max_pixels = 0 ∨ img.width * img.height ≤ max_pixels)
    (hsize : 4 * ((img.width * 3 + 3) / 4) * img.height ≤ 4294967295 - 54) :
    ∃ bytes, bmp_write img = some bytes ∧
      bmp_read bytes max_pixels =
        some ⟨img.width, img.height, 3,
          if img.channels = 4 then dropAlpha img.pixels else img.pixels⟩ := by
  have hwrite := bmp_write_unfold img hw hh hwi hhi hch hsize
  have hR3w : 3 * img.width ≤ 4 * ((img.width * 3 + 3) / 4) := by omega
  rcases hch with hc | hc
  · simp only [hc, if_neg (show ¬ (3 : Nat) = 4 from by norm_num)] at hwrite hlen ⊢
    refine ⟨_, hwrite, ?_⟩
    have hchlen : ∀ c ∈ chunkRows (img.width * 3) img.height img.pixels,
        c.length = img.width * 3 :=
      chunkRows_mem_length _ img.height img.pixels (by rw [hlen]; ring)
    have hrows : ∀ r ∈ (chunkRows (img.width * 3) img.height img.pixels).reverse.map
        (fun srcRow => bmp_row_rgb_to_bgr3 img.width srcRow ++
          List.replicate (4 * ((img.width * 3 + 3) / 4) - 3 * img.width) 0),
        r.length = 4 * ((img.width * 3 + 3) / 4) := by
      intro r hr
      obtain ⟨c, hcm, rfl⟩ := List.mem_map.mp hr
      have hclen := hchlen c (List.mem_reverse.mp hcm)
      rw [List.length_append, List.length_replicate,
          bmp_row_rgb_to_bgr3_length img.width c (by omega)]
      omega
    have hrl : ((chunkRows (img.width * 3) img.height img.pixels).reverse.map
        (fun srcRow => bmp_row_rgb_to_bgr3 img.width srcRow ++
          List.replicate (4 * ((img.width * 3 + 3) / 4) - 3 * img.width) 0)).length =
        img.height := by
      rw [List.length_map, List.length_reverse, chunkRows_length]
    rw [bmp_read_explicit img.width img.height _ _ _ max_pixels hw hh hwi hhi hceil
          hrows hrl]
    rw [List.map_map, List.map_reverse, List.reverse_reverse]
    rw [list_map_congr _ (fun c => c) _ (fun c hcm => by
      exact bmp_row_roundtrip3 img.width c _ (by rw [hchlen c hcm]; ring))]
    rw [show (fun c : List Nat => c) = @id (List Nat) from rfl, List.map_id,
        chunkRows_flatten _ img.height img.pixels (by rw [hlen]; ring)]
  · simp only [hc, if_pos (show (4 : Nat) = 4 from rfl), if_true] at hwrite hlen ⊢
    refine ⟨_, hwrite, ?_⟩
    have hchlen : ∀ c ∈ chunkRows (img.width * 4) img.height img.pixels,
        c.length = img.width * 4 :=
      chunkRows_mem_length _ img.height img.pixels (by rw [hlen]; ring)
    have hrows : ∀ r ∈ (chunkRows (img.width * 4) img.height img.pixels).reverse.map
        (fun srcRow => bmp_row_rgb_to_bgr4 img.width srcRow ++
          List.replicate (4 * ((img.width * 3 + 3) / 4) - 3 * img.width) 0),
        r.length = 4 * ((img.width * 3 + 3) / 4) := by
      intro r hr
      obtain ⟨c, hcm, rfl⟩ := List.mem_map.mp hr
      have hclen := hchlen c (List.mem_reverse.mp hcm)
      rw [List.length_append, List.length_replicate,
          bmp_row_rgb_to_bgr4_length img.width c (by omega)]
      omega
    have hrl : ((chunkRows (img.width * 4) img.height img.pixels).reverse.map
        (fun srcRow => bmp_row_rgb_to_bgr4 img.width srcRow ++
          List.replicate (4 * ((img.width * 3 + 3) / 4) - 3 * img.width) 0)).length =
        img.height := by
      rw [List.length_map, List.length_reverse, chunkRows_length]
    rw [bmp_read_explicit img.width img.height _ _ _ max_pixels hw hh hwi hhi hceil
          hrows hrl]
    rw [List.map_map, List.map_reverse, List.reverse_reverse]
    rw [list_map_congr _ dropAlpha _ (fun c hcm => by
      exact bmp_row_roundtrip4 img.width c _ (by rw [hchlen c hcm]; ring))]
    rw [show img.width * 4 = 4 * img.width from by ring] at *
    rw [dropAlpha_chunkRows_flatten img.width img.height img.pixels (by rw [hlen]; ring)]

/-- **C5, counterexample**: an image satisfying every hypothesis of the claim
(positive in-range dimensions, 3 channels, exact buffer, pixel count within a
ceiling of 0 = unlimited) for which `bmp_write` nevertheless fails: the
padded image size `196608 * 65536` exceeds what the BMP `uint32_t` file-size
field can hold, so no byte stream is produced and `decode(encode(img))`
cannot succeed. -/
def bmpOverflowImage : Image :=
  ⟨65536, 65536, 3, List.replicate (65536 * 65536 * 3) 0⟩

theorem bmp_write_size_failure :
    bmp_write bmpOverflowImage = none ∧
    0 < bmpOverflowImage.width ∧ 0 < bmpOverflowImage.height ∧
    bmpOverflowImage.channels = 3 ∧
    bmpOverflowImage.pixels.length =
      bmpOverflowImage.width * bmpOverflowImage.height * bmpOverflowImage.channels ∧
    ((0 : Nat) = 0 ∨ bmpOverflowImage.width * bmpOverflowImage.height ≤ 0) := by
  refine ⟨?_, by decide, by decide, rfl,
    List.length_replicate (65536 * 65536 * 3) 0, Or.inl rfl⟩
  rw [bmp_write]
  rw [if_neg (by decide)]
  rw [show bmpOverflowImage.width = 65536 from rfl,
      show bmpOverflowImage.height = 65536 from rfl]
  rw [checked_mul_size_spec 65536 3 (by decide) (by decide), if_pos (by decide)]
  dsimp only []
  rw [checked_add_size_spec (65536 * 3) 3 (by decide) (by decide), if_pos (by decide)]
  dsimp only []
  rw [if_neg (by decide)]
  rw [checked_mul_size_spec (4 * ((65536 * 3 + 3) / 4)) 65536 (by decide) (by decide),
      if_pos (by decide)]
  dsimp only []
  rw [if_pos (by decide)]

/-- Witness for `bmp_round_trip` at a concrete 1×1 RGBA image: the decoded
result is 3-channel with alpha dropped. -/
theorem bmp_round_trip_witness :
    ∃ bytes, bmp_write ⟨1, 1, 4, [5, 6, 7, 8]⟩ = some bytes ∧
      bmp_read bytes 0 = some ⟨1, 1, 3, [5, 6, 7]⟩ :=
  bmp_round_trip ⟨1, 1, 4, [5, 6, 7, 8]⟩ 0 (by decide) (by decide) (by decide)
    (by decide) (Or.inr rfl) (by decide) (Or.inl rfl) (by decide)
